import Mathlib

/-!
# ESP32S3DMX: a DMX512 receiver

Shallow embedding of `src/ESP32S3DMX.h` and `src/ESP32S3DMX.cpp`.

* The object's fields become the fields of `State`; the two byte arrays are maps from an
  index to a byte value, `memcpy` is the index-wise copy.
* `uint16_t` / `uint32_t` arithmetic is arithmetic on `Nat` reduced modulo `2^16` / `2^32`.
* `millis()` is the platform clock; every operation that reads it takes the clock value as
  an argument and reduces it to 32 bits.
* The serial source is external: `processData` takes the bytes that are available when it is
  called and hands back the ones it did not read.
* `getPacketRate` computes a `float`; the model returns the dividend and the divisor of the
  division the code performs, without the rounding of floating point.
-/

namespace ESP32S3DMX

/-! ## Constants of `ESP32S3DMX.h` -/

/-- Maximum DMX channels per universe. -/
def DMX_CHANNELS : Nat := 512

/-- Start code + 512 channels. -/
def DMX_PACKET_SIZE : Nat := 513

/-- Extra byte for the UART break artifact. -/
def DMX_BUFFER_SIZE : Nat := 514

/-- Connection timeout in milliseconds. -/
def DMX_TIMEOUT_MS : Nat := 1000

/-! ## Machine arithmetic -/

/-- Conversion to `uint8_t`. -/
def u8 (n : Nat) : Nat := n % 256

/-- Conversion to `uint16_t`. -/
def u16 (n : Nat) : Nat := n % 65536

/-- Conversion to `uint32_t`. -/
def u32 (n : Nat) : Nat := n % 4294967296

/-- Subtraction of two `uint32_t` values, wrapping modulo `2^32`. -/
def sub32 (a b : Nat) : Nat := (u32 a + (4294967296 - u32 b)) % 4294967296

/-- The value `millis()` returns when the platform's millisecond clock reads `clock`. -/
def millis (clock : Nat) : Nat := u32 clock

/-- The call `memcpy(dst, &src[srcOff], n)`: the first `n` cells of `dst` receive
`src[srcOff], ..., src[srcOff + n - 1]`, the other cells keep their value. -/
def memcpy (dst src : Nat → Nat) (srcOff n : Nat) : Nat → Nat :=
  fun i => if i < n then src (srcOff + i) else dst i

/-! ## The object -/

/-- Modelled from the spec: the platform's `hardwareSerial_error_t`, which is declared in the
Arduino core and not in this repository. The spec names the break and "framing/parity errors
other than break"; every further kind is `UART_OTHER_ERROR`. -/
inductive hardwareSerial_error_t where
  | UART_BREAK_ERROR
  | UART_FRAME_ERROR
  | UART_PARITY_ERROR
  | UART_OTHER_ERROR (code : Nat)
  deriving DecidableEq

open hardwareSerial_error_t

/-- The fields of `class ESP32S3DMX`, and the static `instance` pointer (`instancePtr` is true
when it points to this object, false when it is `nullptr`). `dmxSerial` is true when the
pointer is not null. -/
structure State where
  dmxSerial : Bool
  uartNum : Nat
  rxPin : Int
  txPin : Int
  enablePin : Int
  dmxData : Nat → Nat
  dmxBuffer : Nat → Nat
  inPacket : Bool
  bufferIndex : Nat
  lastPacketSize : Nat
  lastPacketTime : Nat
  packetCount : Nat
  errorCount : Nat
  lastPacketRateTime : Nat
  lastPacketCountForRate : Nat
  debugMode : Bool
  initialized : Bool
  instancePtr : Bool

/-- The constructor `ESP32S3DMX::ESP32S3DMX()`; the static pointer starts as `nullptr`. -/
def ctor : State :=
  { dmxSerial := false
    uartNum := 0
    rxPin := -1
    txPin := -1
    enablePin := -1
    dmxData := fun _ => 0
    dmxBuffer := fun _ => 0
    inPacket := false
    bufferIndex := 0
    lastPacketSize := 0
    lastPacketTime := 0
    packetCount := 0
    errorCount := 0
    lastPacketRateTime := 0
    lastPacketCountForRate := 0
    debugMode := false
    initialized := false
    instancePtr := false }

/-- The method `ESP32S3DMX::end()`. -/
def end_ (st : State) : State :=
  if !st.initialized then st
  else { st with dmxSerial := false, initialized := false, instancePtr := false }

/-- The method `ESP32S3DMX::begin(uart_num, rx_pin, tx_pin, enable_pin)`. `allocOk` tells
whether `new HardwareSerial` gave a non-null pointer; `clock1` and `clock2` are the clock
values at the two calls of `millis()`. -/
def begin (st : State) (uart_num : Nat) (rx_pin tx_pin enable_pin : Int) (allocOk : Bool)
    (clock1 clock2 : Nat) : State :=
  let st1 := if st.initialized then end_ st else st
  let st2 : State :=
    { st1 with
      uartNum := u8 uart_num
      rxPin := rx_pin
      txPin := tx_pin
      enablePin := enable_pin
      instancePtr := true
      dmxSerial := allocOk }
  if !allocOk then st2
  else
    { st2 with
      lastPacketTime := millis clock1
      lastPacketRateTime := millis clock2
      initialized := true }

/-- The method `ESP32S3DMX::processBreak()`, run when the clock reads `clock`. -/
def processBreak (st : State) (clock : Nat) : State :=
  let st1 : State :=
    if st.bufferIndex > 0 then
      let dataStart : Nat := if st.bufferIndex ≥ 2 then 1 else 0
      let dmxDataSize : Nat := u16 (st.bufferIndex - dataStart)
      let copySize : Nat :=
        if dmxDataSize > DMX_PACKET_SIZE then DMX_PACKET_SIZE else dmxDataSize
      if copySize > 0 then
        { st with
          dmxData := memcpy st.dmxData st.dmxBuffer dataStart copySize
          lastPacketSize := copySize
          lastPacketTime := millis clock
          packetCount := u32 (st.packetCount + 1) }
      else st
    else st
  { st1 with bufferIndex := 0 }

/-- The loop of `processData`: while a byte is available and `bufferIndex < DMX_BUFFER_SIZE`,
`dmxBuffer[bufferIndex++] = dmxSerial->read()`. Returns the buffer, the index, and the bytes
left in the serial source. -/
def processDataLoop : List Nat → (Nat → Nat) → Nat → (Nat → Nat) × Nat × List Nat
  | [], buf, idx => (buf, idx, [])
  | b :: rest, buf, idx =>
    if idx < DMX_BUFFER_SIZE then
      processDataLoop rest (fun i => if i = idx then u8 b else buf i) (u16 (idx + 1))
    else (buf, idx, b :: rest)

/-- The method `ESP32S3DMX::processData()`; `avail` holds the bytes the serial source has
available, in arrival order. Returns the new state and the bytes not read. -/
def processData (st : State) (avail : List Nat) : State × List Nat :=
  if !st.dmxSerial then (st, avail)
  else
    let r := processDataLoop avail st.dmxBuffer st.bufferIndex
    ({ st with dmxBuffer := r.1, bufferIndex := r.2.1 }, r.2.2)

/-- The method `ESP32S3DMX::isConnected()`, called when the clock reads `clock`. -/
def isConnected (st : State) (clock : Nat) : Bool :=
  if !st.initialized then false
  else decide (sub32 (millis clock) st.lastPacketTime < DMX_TIMEOUT_MS)

/-- The method `ESP32S3DMX::read(channel)`, called when the clock reads `clock`. -/
def read (st : State) (channel : Nat) (clock : Nat) : Nat :=
  if channel = 0 ∨ channel > DMX_CHANNELS ∨ !st.initialized then 0
  else if !isConnected st clock then 0
  else if channel ≥ st.lastPacketSize then 0
  else st.dmxData channel

/-- The method `ESP32S3DMX::readChannels(buffer, start_channel, count)`, called when the
clock reads `clock`. `buffer` is `none` for a null pointer, else the caller's memory from
the pointer on. Returns the return value and the caller's memory after the call. -/
def readChannels (st : State) (buffer : Option (Nat → Nat)) (start_channel count : Nat)
    (clock : Nat) : Nat × Option (Nat → Nat) :=
  match buffer with
  | none => (0, none)
  | some dest =>
    if start_channel = 0 ∨ start_channel > DMX_CHANNELS ∨ !st.initialized then (0, some dest)
    else if !isConnected st clock then (0, some dest)
    else if st.lastPacketSize > start_channel then
      let available : Nat := u16 (st.lastPacketSize - start_channel)
      let toRead : Nat := if count < available then count else available
      (toRead, some (memcpy dest st.dmxData start_channel toRead))
    else (0, some dest)

/-- The method `ESP32S3DMX::timeSinceLastPacket()`, called when the clock reads `clock`. -/
def timeSinceLastPacket (st : State) (clock : Nat) : Nat :=
  if !st.initialized ∨ st.lastPacketTime = 0 then 0xFFFFFFFF
  else sub32 (millis clock) st.lastPacketTime

/-- The division `getPacketRate` performs: the dividend `num` and the divisor `den`, both
before their conversion to `float`. The value `0.0` is `num = 0`, `den = 1`. -/
structure Rate where
  num : Nat
  den : Nat
  deriving DecidableEq, Repr

/-- The method `ESP32S3DMX::getPacketRate()`, called when the clock reads `clock`. It is
`const` in the source and writes two fields through `const_cast`, so it returns the state. -/
def getPacketRate (st : State) (clock : Nat) : State × Rate :=
  if !st.initialized ∨ st.packetCount = 0 then (st, ⟨0, 1⟩)
  else
    let now := millis clock
    let timeDiff := sub32 now st.lastPacketRateTime
    if timeDiff ≥ 1000 then
      let packetDiff := sub32 st.packetCount st.lastPacketCountForRate
      ({ st with lastPacketRateTime := now, lastPacketCountForRate := st.packetCount },
        ⟨packetDiff * 1000, timeDiff⟩)
    else if st.lastPacketCountForRate = 0 then
      ({ st with lastPacketRateTime := now, lastPacketCountForRate := st.packetCount },
        ⟨st.packetCount * 1000, now⟩)
    else
      let packetDiff := sub32 st.packetCount st.lastPacketCountForRate
      (st, ⟨packetDiff * 1000, timeDiff⟩)

/-- The accessor `getPacketCount()`. -/
def getPacketCount (st : State) : Nat := st.packetCount

/-- The accessor `getErrorCount()`. -/
def getErrorCount (st : State) : Nat := st.errorCount

/-- The accessor `getLastPacketSize()`. -/
def getLastPacketSize (st : State) : Nat := st.lastPacketSize

/-- The accessor `getBuffer()`. -/
def getBuffer (st : State) : Nat → Nat := st.dmxData

/-- The callback `begin` registers with `onReceiveError`. -/
def onReceiveError (st : State) (error : hardwareSerial_error_t) (clock : Nat) : State :=
  if st.instancePtr ∧ error = UART_BREAK_ERROR then processBreak st clock else st

/-- The callback `begin` registers with `onReceive`. -/
def onReceive (st : State) (avail : List Nat) : State × List Nat :=
  if st.instancePtr then processData st avail else (st, avail)

/-! ## Sequences of operations -/

/-- What can happen to the object: a call of a public method, or one of the two callbacks
fired by the serial object. -/
inductive Op where
  | begin (uart_num : Nat) (rx_pin tx_pin enable_pin : Int) (allocOk : Bool)
      (clock1 clock2 : Nat)
  | end_
  | onReceive (avail : List Nat)
  | onReceiveError (error : hardwareSerial_error_t) (clock : Nat)
  | read (channel clock : Nat)
  | readChannels (buffer : Option (Nat → Nat)) (start_channel count clock : Nat)
  | isConnected (clock : Nat)
  | timeSinceLastPacket (clock : Nat)
  | getPacketRate (clock : Nat)
  | getPacketCount
  | getErrorCount
  | getLastPacketSize
  | getBuffer

/-- The state after one operation. The callbacks are registered on the serial object, which
`end()` deletes, so they fire only while `dmxSerial` is not null. -/
def step (st : State) : Op → State
  | Op.begin u rx tx en ok c1 c2 => begin st u rx tx en ok c1 c2
  | Op.end_ => end_ st
  | Op.onReceive avail => if st.dmxSerial then (onReceive st avail).1 else st
  | Op.onReceiveError e c => if st.dmxSerial then onReceiveError st e c else st
  | Op.getPacketRate c => (getPacketRate st c).1
  | Op.read _ _ => st
  | Op.readChannels _ _ _ _ => st
  | Op.isConnected _ => st
  | Op.timeSinceLastPacket _ => st
  | Op.getPacketCount => st
  | Op.getErrorCount => st
  | Op.getLastPacketSize => st
  | Op.getBuffer => st

/-- The state after a sequence of operations. -/
def run (st : State) : List Op → State
  | [] => st
  | op :: ops => run (step st op) ops

/-- A state the object can be in: the result of some sequence of operations on a freshly
constructed object. -/
def Reachable (st : State) : Prop := ∃ ops : List Op, run ctor ops = st

/-- An operation publishes a frame when it is the error callback, fired with a break while
the static pointer is set, and `processBreak` finds a non-empty working buffer. -/
def publishes (st : State) : Op → Bool
  | Op.onReceiveError e _ =>
    st.dmxSerial && st.instancePtr && decide (e = UART_BREAK_ERROR) && decide (st.bufferIndex > 0)
  | _ => false

/-- The number of operations of a sequence that publish a frame. -/
def publishCount (st : State) : List Op → Nat
  | [] => 0
  | op :: ops => (if publishes st op then 1 else 0) + publishCount (step st op) ops

/-- An operation that stays in the session and publishes nothing: it is neither `begin` nor
`end`, and it is not a publishing break. -/
def quietOp (st : State) : Op → Bool
  | Op.begin _ _ _ _ _ _ _ => false
  | Op.end_ => false
  | op => !publishes st op

/-- A sequence of operations that stays in the session and publishes nothing. -/
def quietOps (st : State) : List Op → Bool
  | [] => true
  | op :: ops => quietOp st op && quietOps (step st op) ops

/-- Whether an operation is a call of `begin`. -/
def isBegin : Op → Bool
  | Op.begin _ _ _ _ _ _ _ => true
  | _ => false

/-- A sequence of operations without a call of `begin`. -/
def noBegin (ops : List Op) : Bool := ops.all (fun op => !isBegin op)

/-- The value of the division of `getPacketRate`, taken exactly. It is `none` when the
divisor is zero: there the float division of the code gives an infinity or a NaN, not a
number. -/
def Rate.toRat (r : Rate) : Option ℚ :=
  if r.den = 0 then none else some ((r.num : ℚ) / (r.den : ℚ))

/-- A run of `processData` calls. The serial source queues what arrives: each call finds
the bytes the previous calls left unread (`pending`), followed by the chunk that has arrived
since. Returns the state after the last call and the bytes still unread. -/
def deliver (st : State) (pending : List Nat) : List (List Nat) → State × List Nat
  | [] => (st, pending)
  | chunk :: rest =>
    deliver (processData st (pending ++ chunk)).1 (processData st (pending ++ chunk)).2 rest

/-! ## The buffer accesses -/

/-- The `memcpy` of `processBreak` (cpp line 130), when it runs: the pair `(dataStart,
copySize)`. The call reads `dmxBuffer[dataStart .. dataStart + copySize)` and writes
`dmxData[0 .. copySize)`. It is `none` when the call is skipped. -/
def processBreakCopy (st : State) : Option (Nat × Nat) :=
  if st.bufferIndex > 0 then
    let dataStart : Nat := if st.bufferIndex ≥ 2 then 1 else 0
    let dmxDataSize : Nat := u16 (st.bufferIndex - dataStart)
    let copySize : Nat :=
      if dmxDataSize > DMX_PACKET_SIZE then DMX_PACKET_SIZE else dmxDataSize
    if copySize > 0 then some (dataStart, copySize) else none
  else none

/-- The index at which `read` reads `dmxData` (cpp line 168), `none` when it returns before
that line. -/
def readIndex (st : State) (channel : Nat) (clock : Nat) : Option Nat :=
  if channel = 0 ∨ channel > DMX_CHANNELS ∨ !st.initialized then none
  else if !isConnected st clock then none
  else if channel ≥ st.lastPacketSize then none
  else some channel

/-- The `memcpy` of `readChannels` (cpp line 193), when it runs: the pair `(start_channel,
toRead)`. The call reads `dmxData[start_channel .. start_channel + toRead)` and writes
`buffer[0 .. toRead)`. It is `none` when the method returns before the call. -/
def readChannelsCopy (st : State) (buffer : Option (Nat → Nat)) (start_channel count : Nat)
    (clock : Nat) : Option (Nat × Nat) :=
  match buffer with
  | none => none
  | some _ =>
    if start_channel = 0 ∨ start_channel > DMX_CHANNELS ∨ !st.initialized then none
    else if !isConnected st clock then none
    else if st.lastPacketSize > start_channel then
      let available : Nat := u16 (st.lastPacketSize - start_channel)
      let toRead : Nat := if count < available then count else available
      some (start_channel, toRead)
    else none

/-- The method `readChannels` with the producer allowed to run between its two parts. The
guards and the computation of `toRead` (cpp lines 172-189) run outside the critical section,
on the state `before`; the `memcpy` (cpp lines 192-194) runs inside `noInterrupts()`, on the
state `atCopy` the object is in at that moment. With `atCopy = before` this is
`readChannels`. -/
def readChannelsSplit (before atCopy : State) (buffer : Option (Nat → Nat))
    (start_channel count : Nat) (clock : Nat) : Nat × Option (Nat → Nat) :=
  match buffer with
  | none => (0, none)
  | some dest =>
    if start_channel = 0 ∨ start_channel > DMX_CHANNELS ∨ !before.initialized then
      (0, some dest)
    else if !isConnected before clock then (0, some dest)
    else if before.lastPacketSize > start_channel then
      let available : Nat := u16 (before.lastPacketSize - start_channel)
      let toRead : Nat := if count < available then count else available
      (toRead, some (memcpy dest atCopy.dmxData start_channel toRead))
    else (0, some dest)

/-- The first four cells of the caller's memory after a call of `readChannels`. -/
def firstFour (r : Nat × Option (Nat → Nat)) : Option (List Nat) :=
  r.2.map (fun d => [d 0, d 1, d 2, d 3])

/-! ## Example states -/

/-- An initialised receiver that has taken four bytes from the serial source: the break
artifact `9`, the start code `0` and two channel values. -/
def exFourBytes : State :=
  run ctor [Op.begin 2 6 4 5 true 100 100, Op.onReceive [9, 0, 255, 17]]

/-- An initialised receiver that has taken one byte from the serial source. -/
def exOneByte : State :=
  run ctor [Op.begin 2 6 4 5 true 100 100, Op.onReceive [42]]

/-- An initialised receiver with a frame published at time `200` and nothing received
since. -/
def exPublished : State :=
  run ctor [Op.begin 2 6 4 5 true 100 100, Op.onReceive [9, 0, 255, 17],
    Op.onReceiveError UART_BREAK_ERROR 200]

/-- An initialised receiver with a full frame published at time `200`: 514 bytes were
received, the break artifact and then the 513 bytes `1 % 256, 2 % 256, ...`. -/
def exFullFrame : State :=
  run ctor [Op.begin 2 6 4 5 true 100 100, Op.onReceive (List.range 514),
    Op.onReceiveError UART_BREAK_ERROR 200]

/-- An initialised receiver, `begin` having run at time `5000`, that has received nothing. -/
def exBegun : State :=
  run ctor [Op.begin 2 6 4 5 true 5000 5000]

/-- One frame of one byte: the byte arrives, then the break. -/
def frameOps : List Op :=
  [Op.onReceive [0], Op.onReceiveError UART_BREAK_ERROR 0]

/-- A session in which `k` one-byte frames are published and one more byte arrives. -/
def framesThenByte (k : Nat) : List Op :=
  Op.begin 2 6 4 5 true 0 0 :: ((List.replicate k frameOps).flatten ++ [Op.onReceive [0]])

/-- A session in which `2^32 - 1` one-byte frames are published and one more byte arrives. -/
def wrapOps : List Op := framesThenByte 4294967295

/-- The state at the end of `wrapOps`. -/
def exWrap : State := run ctor wrapOps

/-- A second session: a frame was published at time `200` in the first session, two more
bytes arrived, then `end()` and `begin()` at time `5000`; nothing has been received since. -/
def exRestarted : State :=
  run ctor [Op.begin 2 6 4 5 true 100 100, Op.onReceive [9, 0, 255, 17],
    Op.onReceiveError UART_BREAK_ERROR 200, Op.onReceive [5, 6], Op.end_,
    Op.begin 2 6 4 5 true 5000 5000]

/-- An initialised receiver with one frame published at time `200` whose rate was sampled
by `getPacketRate()` at time `1200`. -/
def exSampled : State :=
  run ctor [Op.begin 2 6 4 5 true 100 100, Op.onReceive [9, 0, 255, 17],
    Op.onReceiveError UART_BREAK_ERROR 200, Op.getPacketRate 1200]

/-- A receiver restarted after a publish: the frame is published at time `200`, and
`begin()` is called again at time `900`. -/
def exRebegun : State :=
  run ctor [Op.begin 2 6 4 5 true 100 100, Op.onReceive [9, 0, 255, 17],
    Op.onReceiveError UART_BREAK_ERROR 200, Op.begin 2 6 4 5 true 900 900]

/-- A receiver whose published frame is `[0, 10, 20, 30, 40]` (published at time `200`) and
whose working buffer already holds the next frame: the break artifact, the start code and
one channel value `77`. -/
def exFrameA : State :=
  run ctor [Op.begin 2 6 4 5 true 100 100, Op.onReceive [9, 0, 10, 20, 30, 40],
    Op.onReceiveError UART_BREAK_ERROR 200, Op.onReceive [9, 0, 77]]

/-- The state `exFrameA` after the break at time `250`: the published frame is `[0, 77]`. -/
def exFrameB : State :=
  step exFrameA (Op.onReceiveError UART_BREAK_ERROR 250)

/-! ## The invariant of the reachable states -/

/-- Facts that hold in every reachable state: the two lengths stay within the capacities,
the fields stay within their machine types, and the serial object exists exactly while the
receiver is initialised. -/
structure Inv (st : State) : Prop where
  size_le : st.lastPacketSize ≤ DMX_PACKET_SIZE
  index_le : st.bufferIndex ≤ DMX_BUFFER_SIZE
  time_lt : st.lastPacketTime < 4294967296
  count_lt : st.packetCount < 4294967296
  rateTime_lt : st.lastPacketRateTime < 4294967296
  rateCount_lt : st.lastPacketCountForRate < 4294967296
  serial_init : st.dmxSerial = st.initialized
  serial_inst : st.dmxSerial = true → st.instancePtr = true
  data_byte : ∀ i, st.dmxData i < 256
  buffer_byte : ∀ i, st.dmxBuffer i < 256

/-! ## Basic facts -/

theorem millis_of_lt (t : Nat) (ht : t < 4294967296) : millis t = t := by
  unfold millis u32
  omega

theorem processBreak_bufferIndex (st : State) (t : Nat) : (processBreak st t).bufferIndex = 0 := by
  unfold processBreak
  rfl

/-- What `processBreak` does with a non-empty working buffer whose length fits `uint16_t`. -/
theorem processBreak_nonempty (st : State) (t : Nat) (h0 : 0 < st.bufferIndex)
    (h16 : st.bufferIndex < 65536) :
    processBreak st t =
      { st with
        dmxData := memcpy st.dmxData st.dmxBuffer (if st.bufferIndex ≥ 2 then 1 else 0)
          (min (st.bufferIndex - (if st.bufferIndex ≥ 2 then 1 else 0)) 513)
        lastPacketSize := min (st.bufferIndex - (if st.bufferIndex ≥ 2 then 1 else 0)) 513
        lastPacketTime := millis t
        packetCount := u32 (st.packetCount + 1)
        bufferIndex := 0 } := by
  unfold processBreak
  have hsz : u16 (st.bufferIndex - (if st.bufferIndex ≥ 2 then 1 else 0))
      = st.bufferIndex - (if st.bufferIndex ≥ 2 then 1 else 0) := by
    unfold u16
    split <;> omega
  have hcopy : (if u16 (st.bufferIndex - (if st.bufferIndex ≥ 2 then 1 else 0)) > DMX_PACKET_SIZE
      then DMX_PACKET_SIZE else u16 (st.bufferIndex - (if st.bufferIndex ≥ 2 then 1 else 0)))
      = min (st.bufferIndex - (if st.bufferIndex ≥ 2 then 1 else 0)) 513 := by
    rw [hsz]
    unfold DMX_PACKET_SIZE
    split <;> split <;> omega
  have hpos : 0 < min (st.bufferIndex - (if st.bufferIndex ≥ 2 then 1 else 0)) 513 := by
    split <;> omega
  simp only [h0, if_true, hcopy, gt_iff_lt, hpos]

/-- What `processBreak` does with an empty working buffer. -/
theorem processBreak_empty (st : State) (t : Nat) (h0 : st.bufferIndex = 0) :
    processBreak st t = { st with bufferIndex := 0 } := by
  unfold processBreak
  simp [h0]

theorem isConnected_iff (st : State) (now : Nat) (hinit : st.initialized = true) :
    isConnected st now = true ↔
      ((now : Int) - (st.lastPacketTime : Int)) % 4294967296 < 1000 := by
  unfold isConnected
  simp only [hinit, Bool.not_true, Bool.false_eq_true, if_false, decide_eq_true_eq]
  unfold sub32 millis u32 DMX_TIMEOUT_MS
  omega

theorem memcpy_byte (dst src : Nat → Nat) (off n : Nat) (hd : ∀ i, dst i < 256)
    (hs : ∀ i, src i < 256) : ∀ i, memcpy dst src off n i < 256 := by
  intro i
  unfold memcpy
  split
  · exact hs _
  · exact hd _

/-- The state `getPacketRate` leaves: the one it found, or that one with a new rate sample. -/
theorem getPacketRate_state (st : State) (c : Nat) :
    (getPacketRate st c).1 = st ∨
      (getPacketRate st c).1 =
        { st with lastPacketRateTime := millis c, lastPacketCountForRate := st.packetCount } := by
  unfold getPacketRate
  dsimp only
  by_cases h1 : (!st.initialized) = true ∨ st.packetCount = 0
  · rw [if_pos h1]; left; rfl
  · rw [if_neg h1]
    by_cases h2 : sub32 (millis c) st.lastPacketRateTime ≥ 1000
    · rw [if_pos h2]; right; rfl
    · rw [if_neg h2]
      by_cases h3 : st.lastPacketCountForRate = 0
      · rw [if_pos h3]; right; rfl
      · rw [if_neg h3]; left; rfl

/-- The method `read` on an initialised receiver whose frame is live. -/
theorem read_live (st : State) (c now : Nat) (hinit : st.initialized = true)
    (hconn : isConnected st now = true) :
    read st c now =
      if c = 0 ∨ c > 512 then 0 else if c ≥ st.lastPacketSize then 0 else st.dmxData c := by
  unfold read
  simp only [hinit, hconn, Bool.not_true, Bool.false_eq_true, or_false, if_false,
    DMX_CHANNELS]

theorem processDataLoop_index (avail : List Nat) :
    ∀ (buf : Nat → Nat) (idx : Nat), idx ≤ DMX_BUFFER_SIZE →
      (processDataLoop avail buf idx).2.1 ≤ DMX_BUFFER_SIZE := by
  induction avail with
  | nil => intro buf idx h; exact h
  | cons b rest ih =>
    intro buf idx h
    unfold processDataLoop
    split
    · apply ih
      unfold u16 DMX_BUFFER_SIZE at *
      omega
    · exact h

theorem processDataLoop_byte (avail : List Nat) :
    ∀ (buf : Nat → Nat) (idx : Nat), (∀ i, buf i < 256) →
      ∀ i, (processDataLoop avail buf idx).1 i < 256 := by
  induction avail with
  | nil => intro buf idx h; exact h
  | cons b rest ih =>
    intro buf idx h
    unfold processDataLoop
    split
    · apply ih
      intro i
      show (if i = idx then u8 b else buf i) < 256
      split
      · unfold u8; omega
      · exact h i
    · exact h

theorem Inv_ctor : Inv ctor := by
  constructor <;> simp [ctor, DMX_PACKET_SIZE, DMX_BUFFER_SIZE]

theorem Inv_end (st : State) (h : Inv st) : Inv (end_ st) := by
  unfold end_
  split
  · exact h
  · exact ⟨h.size_le, h.index_le, h.time_lt, h.count_lt, h.rateTime_lt, h.rateCount_lt, rfl,
      fun hf => by simp at hf, h.data_byte, h.buffer_byte⟩

theorem Inv_begin (st : State) (u : Nat) (rx tx en : Int) (ok : Bool) (c1 c2 : Nat)
    (h : Inv st) : Inv (begin st u rx tx en ok c1 c2) := by
  have h1 : Inv (if st.initialized then end_ st else st) := by
    split
    · exact Inv_end st h
    · exact h
  have hni : (if st.initialized then end_ st else st).initialized = false := by
    cases hi : st.initialized <;> simp [end_, hi]
  unfold begin
  cases ok
  · exact ⟨h1.size_le, h1.index_le, h1.time_lt, h1.count_lt, h1.rateTime_lt, h1.rateCount_lt,
      hni.symm, fun _ => rfl, h1.data_byte, h1.buffer_byte⟩
  · refine ⟨h1.size_le, h1.index_le, ?_, h1.count_lt, ?_, h1.rateCount_lt, rfl, fun _ => rfl,
      h1.data_byte, h1.buffer_byte⟩
    · show millis c1 < 4294967296
      unfold millis u32; omega
    · show millis c2 < 4294967296
      unfold millis u32; omega

theorem Inv_processBreak (st : State) (t : Nat) (h : Inv st) : Inv (processBreak st t) := by
  have hidx := h.index_le
  unfold DMX_BUFFER_SIZE at hidx
  by_cases h0 : st.bufferIndex = 0
  · rw [processBreak_empty st t h0]
    exact ⟨h.size_le, Nat.zero_le _, h.time_lt, h.count_lt, h.rateTime_lt, h.rateCount_lt,
      h.serial_init, h.serial_inst, h.data_byte, h.buffer_byte⟩
  · rw [processBreak_nonempty st t (by omega) (by omega)]
    refine ⟨?_, Nat.zero_le _, ?_, ?_, h.rateTime_lt, h.rateCount_lt, h.serial_init,
      h.serial_inst, ?_, h.buffer_byte⟩
    · show min _ 513 ≤ DMX_PACKET_SIZE
      unfold DMX_PACKET_SIZE; omega
    · show millis t < 4294967296
      unfold millis u32; omega
    · show u32 (st.packetCount + 1) < 4294967296
      unfold u32; omega
    · exact memcpy_byte _ _ _ _ h.data_byte h.buffer_byte

theorem Inv_processData (st : State) (avail : List Nat) (h : Inv st) :
    Inv (processData st avail).1 := by
  unfold processData
  split
  · exact h
  · exact ⟨h.size_le, processDataLoop_index avail _ _ h.index_le, h.time_lt, h.count_lt,
      h.rateTime_lt, h.rateCount_lt, h.serial_init, h.serial_inst, h.data_byte,
      processDataLoop_byte avail _ _ h.buffer_byte⟩

theorem Inv_getPacketRate (st : State) (c : Nat) (h : Inv st) :
    Inv (getPacketRate st c).1 := by
  have hm : millis c < 4294967296 := by unfold millis u32; omega
  rcases getPacketRate_state st c with he | he
  · rw [he]; exact h
  · rw [he]
    exact ⟨h.size_le, h.index_le, h.time_lt, h.count_lt, hm, h.count_lt, h.serial_init,
      h.serial_inst, h.data_byte, h.buffer_byte⟩

theorem Inv_step (st : State) (op : Op) (h : Inv st) : Inv (step st op) := by
  cases op with
  | begin u rx tx en ok c1 c2 => exact Inv_begin st u rx tx en ok c1 c2 h
  | end_ => exact Inv_end st h
  | onReceive avail =>
    show Inv (if st.dmxSerial then (onReceive st avail).1 else st)
    split
    · unfold onReceive
      split
      · exact Inv_processData st avail h
      · exact h
    · exact h
  | onReceiveError e c =>
    show Inv (if st.dmxSerial then onReceiveError st e c else st)
    split
    · unfold onReceiveError
      split
      · exact Inv_processBreak st c h
      · exact h
    · exact h
  | getPacketRate c => exact Inv_getPacketRate st c h
  | read _ _ => exact h
  | readChannels _ _ _ _ => exact h
  | isConnected _ => exact h
  | timeSinceLastPacket _ => exact h
  | getPacketCount => exact h
  | getErrorCount => exact h
  | getLastPacketSize => exact h
  | getBuffer => exact h

theorem Inv_run (ops : List Op) : ∀ st : State, Inv st → Inv (run st ops) := by
  induction ops with
  | nil => intro st h; exact h
  | cons op ops ih => intro st h; exact ih (step st op) (Inv_step st op h)

theorem Inv_of_Reachable (st : State) (h : Reachable st) : Inv st := by
  obtain ⟨ops, rfl⟩ := h
  exact Inv_run ops ctor Inv_ctor

/-! ## Operations that publish nothing -/

theorem processData_fields (st : State) (avail : List Nat) :
    (processData st avail).1.initialized = st.initialized ∧
      (processData st avail).1.lastPacketTime = st.lastPacketTime := by
  unfold processData
  split <;> exact ⟨rfl, rfl⟩

theorem getPacketRate_fields (st : State) (c : Nat) :
    (getPacketRate st c).1.initialized = st.initialized ∧
      (getPacketRate st c).1.lastPacketTime = st.lastPacketTime := by
  rcases getPacketRate_state st c with he | he <;> rw [he] <;> exact ⟨rfl, rfl⟩

/-- A quiet operation leaves `initialized` and `lastPacketTime` as they are. -/
theorem quietOp_fields (st : State) (op : Op) (hq : quietOp st op = true) :
    (step st op).initialized = st.initialized ∧
      (step st op).lastPacketTime = st.lastPacketTime := by
  cases op with
  | begin u rx tx en ok c1 c2 => simp [quietOp] at hq
  | end_ => simp [quietOp] at hq
  | onReceive avail =>
    show (if st.dmxSerial then (onReceive st avail).1 else st).initialized = _ ∧
      (if st.dmxSerial then (onReceive st avail).1 else st).lastPacketTime = _
    unfold onReceive
    split
    · split
      · exact processData_fields st avail
      · exact ⟨rfl, rfl⟩
    · exact ⟨rfl, rfl⟩
  | onReceiveError e c =>
    show (if st.dmxSerial then onReceiveError st e c else st).initialized = _ ∧
      (if st.dmxSerial then onReceiveError st e c else st).lastPacketTime = _
    unfold onReceiveError
    by_cases hs : st.dmxSerial = true
    · by_cases hg : st.instancePtr = true ∧ e = UART_BREAK_ERROR
      · have h0 : st.bufferIndex = 0 := by
          simp [quietOp, publishes, hs, hg.1, hg.2] at hq
          exact hq
        rw [if_pos hs, if_pos hg, processBreak_empty st c h0]
        exact ⟨rfl, rfl⟩
      · rw [if_pos hs, if_neg hg]
        exact ⟨rfl, rfl⟩
    · rw [if_neg hs]
      exact ⟨rfl, rfl⟩
  | getPacketRate c => exact getPacketRate_fields st c
  | read _ _ => exact ⟨rfl, rfl⟩
  | readChannels _ _ _ _ => exact ⟨rfl, rfl⟩
  | isConnected _ => exact ⟨rfl, rfl⟩
  | timeSinceLastPacket _ => exact ⟨rfl, rfl⟩
  | getPacketCount => exact ⟨rfl, rfl⟩
  | getErrorCount => exact ⟨rfl, rfl⟩
  | getLastPacketSize => exact ⟨rfl, rfl⟩
  | getBuffer => exact ⟨rfl, rfl⟩

theorem quietOps_fields (ops : List Op) :
    ∀ st : State, quietOps st ops = true →
      (run st ops).initialized = st.initialized ∧
        (run st ops).lastPacketTime = st.lastPacketTime := by
  induction ops with
  | nil => intro st _; exact ⟨rfl, rfl⟩
  | cons op ops ih =>
    intro st hq
    have hq2 : quietOp st op = true ∧ quietOps (step st op) ops = true := by
      simpa [quietOps] using hq
    obtain ⟨h1, h2⟩ := quietOp_fields st op hq2.1
    obtain ⟨g1, g2⟩ := ih (step st op) hq2.2
    exact ⟨g1.trans h1, g2.trans h2⟩

/-- The timeout test of `isConnected` on an initialised receiver whose timestamp is `t`. -/
theorem isConnected_boundary (st : State) (t now : Nat) (hinit : st.initialized = true)
    (hpub : st.lastPacketTime = t) (ht : t < 4294967296) :
    (isConnected st now = true ↔ ((now : Int) - (t : Int)) % 4294967296 < 1000) ∧
      isConnected st t = true ∧
      isConnected st ((t + 999) % 4294967296) = true ∧
      isConnected st ((t + 1000) % 4294967296) = false := by
  subst hpub
  refine ⟨isConnected_iff st now hinit, ?_, ?_, ?_⟩
  · rw [isConnected_iff st _ hinit]; omega
  · rw [isConnected_iff st _ hinit]; omega
  · rw [← Bool.not_eq_true, isConnected_iff st _ hinit]; omega

/-! ## The packet counter -/

theorem end_packetCount (st : State) : (end_ st).packetCount = st.packetCount := by
  unfold end_
  split <;> rfl

theorem begin_packetCount (st : State) (u : Nat) (rx tx en : Int) (ok : Bool) (c1 c2 : Nat) :
    (begin st u rx tx en ok c1 c2).packetCount = st.packetCount := by
  unfold begin
  cases ok <;> cases hi : st.initialized <;> simp [end_, hi]

theorem processData_packetCount (st : State) (avail : List Nat) :
    (processData st avail).1.packetCount = st.packetCount := by
  unfold processData
  split <;> rfl

theorem getPacketRate_packetCount (st : State) (c : Nat) :
    (getPacketRate st c).1.packetCount = st.packetCount := by
  rcases getPacketRate_state st c with he | he <;> rw [he]

theorem processBreak_packetCount (st : State) (t : Nat) (h : Inv st) :
    (processBreak st t).packetCount =
      if 0 < st.bufferIndex then (st.packetCount + 1) % 4294967296 else st.packetCount := by
  have hidx := h.index_le
  unfold DMX_BUFFER_SIZE at hidx
  by_cases h0 : st.bufferIndex = 0
  · have hn : ¬ 0 < st.bufferIndex := by omega
    rw [processBreak_empty st t h0, if_neg hn]
  · have hp : 0 < st.bufferIndex := by omega
    have h16 : st.bufferIndex < 65536 := by omega
    rw [processBreak_nonempty st t hp h16, if_pos hp]
    rfl

theorem step_packetCount (st : State) (op : Op) (h : Inv st) :
    (step st op).packetCount =
      if publishes st op then (st.packetCount + 1) % 4294967296 else st.packetCount := by
  cases op with
  | begin u rx tx en ok c1 c2 => exact begin_packetCount st u rx tx en ok c1 c2
  | end_ => exact end_packetCount st
  | onReceive avail =>
    show (if st.dmxSerial then (onReceive st avail).1 else st).packetCount = _
    unfold onReceive
    split
    · split
      · exact processData_packetCount st avail
      · rfl
    · rfl
  | onReceiveError e c =>
    show (if st.dmxSerial then onReceiveError st e c else st).packetCount = _
    unfold onReceiveError publishes
    by_cases hs : st.dmxSerial = true <;> by_cases hi : st.instancePtr = true <;>
      by_cases he : e = UART_BREAK_ERROR <;> by_cases hb : 0 < st.bufferIndex <;>
      simp [hs, hi, he, hb, processBreak_packetCount st c h]
  | getPacketRate c => exact getPacketRate_packetCount st c
  | read _ _ => rfl
  | readChannels _ _ _ _ => rfl
  | isConnected _ => rfl
  | timeSinceLastPacket _ => rfl
  | getPacketCount => rfl
  | getErrorCount => rfl
  | getLastPacketSize => rfl
  | getBuffer => rfl

theorem run_packetCount (ops : List Op) :
    ∀ st : State, Inv st →
      (run st ops).packetCount = (st.packetCount + publishCount st ops) % 4294967296 := by
  induction ops with
  | nil =>
    intro st h
    have := h.count_lt
    show st.packetCount = (st.packetCount + 0) % 4294967296
    omega
  | cons op ops ih =>
    intro st h
    show (run (step st op) ops).packetCount
      = (st.packetCount + ((if publishes st op then 1 else 0) + publishCount (step st op) ops))
          % 4294967296
    rw [ih (step st op) (Inv_step st op h), step_packetCount st op h]
    split <;> omega

theorem run_cons (st : State) (op : Op) (ops : List Op) :
    run st (op :: ops) = run (step st op) ops := rfl

theorem run_append (a b : List Op) : ∀ st : State, run st (a ++ b) = run (run st a) b := by
  induction a with
  | nil => intro st; rfl
  | cons op a ih => intro st; exact ih (step st op)

/-- One one-byte frame, received while the callbacks are live and the working buffer is
empty, leaves the working buffer empty and adds one to the packet counter. -/
theorem run_frameOps (st : State) (hser : st.dmxSerial = true) (hinst : st.instancePtr = true)
    (hidx : st.bufferIndex = 0) :
    (run st frameOps).dmxSerial = true ∧ (run st frameOps).instancePtr = true ∧
      (run st frameOps).bufferIndex = 0 ∧
      (run st frameOps).packetCount = (st.packetCount + 1) % 4294967296 := by
  simp [frameOps, run, step, onReceive, onReceiveError, processData, processDataLoop,
    processBreak, hser, hinst, hidx, DMX_BUFFER_SIZE, DMX_PACKET_SIZE, u16, u32]

theorem run_frames (k : Nat) :
    ∀ st : State, st.dmxSerial = true → st.instancePtr = true → st.bufferIndex = 0 →
      (run st (List.replicate k frameOps).flatten).dmxSerial = true ∧
        (run st (List.replicate k frameOps).flatten).instancePtr = true ∧
        (run st (List.replicate k frameOps).flatten).bufferIndex = 0 ∧
        (run st (List.replicate k frameOps).flatten).packetCount % 4294967296
          = (st.packetCount + k) % 4294967296 := by
  induction k with
  | zero =>
    intro st hser hinst hidx
    exact ⟨hser, hinst, hidx, rfl⟩
  | succ k ih =>
    intro st hser hinst hidx
    obtain ⟨h1, h2, h3, h4⟩ := run_frameOps st hser hinst hidx
    obtain ⟨g1, g2, g3, g4⟩ := ih (run st frameOps) h1 h2 h3
    rw [List.replicate_succ, List.flatten_cons, run_append]
    refine ⟨g1, g2, g3, ?_⟩
    rw [g4, h4]
    omega

/-- The state at the end of `framesThenByte k`: one byte in the working buffer, `k` frames
counted modulo `2^32`. -/
theorem run_framesThenByte (k : Nat) :
    (run ctor (framesThenByte k)).bufferIndex = 1 ∧
      (run ctor (framesThenByte k)).packetCount = k % 4294967296 := by
  have hb : (step ctor (Op.begin 2 6 4 5 true 0 0)).dmxSerial = true ∧
      (step ctor (Op.begin 2 6 4 5 true 0 0)).instancePtr = true ∧
      (step ctor (Op.begin 2 6 4 5 true 0 0)).bufferIndex = 0 ∧
      (step ctor (Op.begin 2 6 4 5 true 0 0)).packetCount = 0 := by
    decide
  obtain ⟨b1, b2, b3, b4⟩ := hb
  obtain ⟨g1, g2, g3, g4⟩ := run_frames k (step ctor (Op.begin 2 6 4 5 true 0 0)) b1 b2 b3
  have hinv : Inv (run (step ctor (Op.begin 2 6 4 5 true 0 0))
      (List.replicate k frameOps).flatten) :=
    Inv_run _ _ (Inv_step _ _ Inv_ctor)
  have hlt := hinv.count_lt
  unfold framesThenByte
  rw [run_cons, run_append]
  generalize run (step ctor (Op.begin 2 6 4 5 true 0 0))
    (List.replicate k frameOps).flatten = s at g1 g2 g3 g4 hlt
  rw [b4] at g4
  have hpc : s.packetCount = k % 4294967296 := by omega
  simp [run, step, onReceive, processData, processDataLoop, g1, g2, g3, hpc, DMX_BUFFER_SIZE,
    u16]

/-! ## The claims -/

/-- C1: with a working buffer of `n` bytes, `2 ≤ n ≤ 514`, `processBreak` at time `t`
drops the first byte and publishes the rest: `dmxData[i] = dmxBuffer[i+1]` for `i < n-1`,
`lastPacketSize = min (n-1) 513`, `lastPacketTime = t`, and the working buffer is empty. -/
theorem C1_processBreak_drops_first_byte (st : State) (n t : Nat)
    (hn : st.bufferIndex = n) (h2 : 2 ≤ n) (h514 : n ≤ 514) (ht : t < 4294967296) :
    (∀ i, i < n - 1 → (processBreak st t).dmxData i = st.dmxBuffer (i + 1)) ∧
      (processBreak st t).lastPacketSize = min (n - 1) 513 ∧
      (processBreak st t).lastPacketTime = t ∧
      (processBreak st t).bufferIndex = 0 := by
  subst hn
  have hge : st.bufferIndex ≥ 2 := h2
  rw [processBreak_nonempty st t (by omega) (by omega)]
  simp only [hge, if_true]
  refine ⟨?_, trivial, millis_of_lt t ht, trivial⟩
  intro i hi
  have hlt : i < min (st.bufferIndex - 1) 513 := by omega
  simp only [memcpy, hlt, if_true, Nat.add_comm]

theorem C1_witness :
    exFourBytes.bufferIndex = 4 ∧ 2 ≤ 4 ∧ 4 ≤ 514 ∧ 7 < 4294967296 ∧
      ((∀ i, i < 4 - 1 → (processBreak exFourBytes 7).dmxData i = exFourBytes.dmxBuffer (i + 1)) ∧
        (processBreak exFourBytes 7).lastPacketSize = min (4 - 1) 513 ∧
        (processBreak exFourBytes 7).lastPacketTime = 7 ∧
        (processBreak exFourBytes 7).bufferIndex = 0) :=
  ⟨by decide, by decide, by decide, by decide,
    C1_processBreak_drops_first_byte exFourBytes 4 7 (by decide) (by decide) (by decide)
      (by decide)⟩

/-- C2: with a working buffer of exactly one byte, `processBreak` trims nothing:
`dmxData[0]` is that byte, `lastPacketSize = 1`, and the working buffer is empty. -/
theorem C2_processBreak_single_byte (st : State) (t : Nat) (h1 : st.bufferIndex = 1) :
    (processBreak st t).dmxData 0 = st.dmxBuffer 0 ∧
      (processBreak st t).lastPacketSize = 1 ∧
      (processBreak st t).bufferIndex = 0 := by
  rw [processBreak_nonempty st t (by omega) (by omega)]
  simp [h1, memcpy]

theorem C2_witness :
    exOneByte.bufferIndex = 1 ∧
      ((processBreak exOneByte 7).dmxData 0 = exOneByte.dmxBuffer 0 ∧
        (processBreak exOneByte 7).lastPacketSize = 1 ∧
        (processBreak exOneByte 7).bufferIndex = 0) :=
  ⟨by decide, C2_processBreak_single_byte exOneByte 7 (by decide)⟩

/-- C3: with an empty working buffer, `processBreak` publishes nothing: `packetCount`,
`lastPacketTime`, `lastPacketSize` and the 513 bytes of `dmxData` are unchanged, and the
working buffer is still empty. -/
theorem C3_processBreak_empty_buffer (st : State) (t : Nat) (h0 : st.bufferIndex = 0) :
    (processBreak st t).packetCount = st.packetCount ∧
      (processBreak st t).lastPacketTime = st.lastPacketTime ∧
      (processBreak st t).lastPacketSize = st.lastPacketSize ∧
      (∀ i, i < DMX_PACKET_SIZE → (processBreak st t).dmxData i = st.dmxData i) ∧
      (processBreak st t).bufferIndex = 0 := by
  rw [processBreak_empty st t h0]
  exact ⟨rfl, rfl, rfl, fun _ _ => rfl, rfl⟩

theorem C3_witness :
    exPublished.bufferIndex = 0 ∧
      ((processBreak exPublished 900).packetCount = exPublished.packetCount ∧
        (processBreak exPublished 900).lastPacketTime = exPublished.lastPacketTime ∧
        (processBreak exPublished 900).lastPacketSize = exPublished.lastPacketSize ∧
        (∀ i, i < DMX_PACKET_SIZE →
          (processBreak exPublished 900).dmxData i = exPublished.dmxData i) ∧
        (processBreak exPublished 900).bufferIndex = 0) :=
  ⟨by decide, C3_processBreak_empty_buffer exPublished 900 (by decide)⟩

/-- C4: in a reachable, initialised state whose last frame is live at time `now` (less than
1000 ms after `lastPacketTime` on the 32-bit clock), `read c` is `0` for every channel
`c ≥ lastPacketSize` and is `dmxData[c]` for every `1 ≤ c < lastPacketSize`. -/
theorem C4_read_live_frame (st : State) (c now : Nat) (hr : Reachable st)
    (hinit : st.initialized = true)
    (hlive : ((now : Int) - (st.lastPacketTime : Int)) % 4294967296 < 1000) :
    (st.lastPacketSize ≤ c → read st c now = 0) ∧
      (1 ≤ c → c < st.lastPacketSize → read st c now = st.dmxData c) := by
  have hsz := (Inv_of_Reachable st hr).size_le
  have hconn : isConnected st now = true := (isConnected_iff st now hinit).2 hlive
  unfold DMX_PACKET_SIZE at hsz
  rw [read_live st c now hinit hconn]
  constructor
  · intro hc
    split_ifs <;> rfl
  · intro h1 hc
    split_ifs <;> first | rfl | omega

theorem C4_witness :
    Reachable exPublished ∧ exPublished.initialized = true ∧
      (((300 : Nat) : Int) - (exPublished.lastPacketTime : Int)) % 4294967296 < 1000 ∧
      ((exPublished.lastPacketSize ≤ 1 → read exPublished 1 300 = 0) ∧
        (1 ≤ 1 → 1 < exPublished.lastPacketSize →
          read exPublished 1 300 = exPublished.dmxData 1)) :=
  ⟨⟨_, rfl⟩, by decide, by decide,
    C4_read_live_frame exPublished 1 300 ⟨_, rfl⟩ (by decide) (by decide)⟩

/-- C5: in a reachable, initialised state whose last frame (of size `s = lastPacketSize`) is
live, with a non-null destination and `1 ≤ start ≤ 512`: if `s > start`, `readChannels`
returns `k = min count (s - start)`, the destination holds `dmxData[start + i]` at every
`i < k` and its old content at every `i ≥ k`, the receiver state is unchanged, and a second
identical call returns `k` again; if `s ≤ start` it returns `0` and the destination is
untouched. -/
theorem C5_readChannels_copies_available (st : State) (dest : Nat → Nat)
    (start count now : Nat) (hr : Reachable st) (hinit : st.initialized = true)
    (hlive : ((now : Int) - (st.lastPacketTime : Int)) % 4294967296 < 1000)
    (hs1 : 1 ≤ start) (hs2 : start ≤ 512) :
    (st.lastPacketSize > start →
      ∃ dest' : Nat → Nat,
        readChannels st (some dest) start count now
            = (min count (st.lastPacketSize - start), some dest') ∧
          (∀ i, i < min count (st.lastPacketSize - start) → dest' i = st.dmxData (start + i)) ∧
          (∀ i, min count (st.lastPacketSize - start) ≤ i → dest' i = dest i) ∧
          step st (Op.readChannels (some dest) start count now) = st ∧
          (readChannels (step st (Op.readChannels (some dest) start count now)) (some dest')
              start count now).1 = min count (st.lastPacketSize - start)) ∧
      (st.lastPacketSize ≤ start →
        readChannels st (some dest) start count now = (0, some dest)) := by
  have hsz := (Inv_of_Reachable st hr).size_le
  have hconn : isConnected st now = true := (isConnected_iff st now hinit).2 hlive
  unfold DMX_PACKET_SIZE at hsz
  have hguard : ¬(start = 0 ∨ start > DMX_CHANNELS ∨ (!st.initialized) = true) := by
    simp only [hinit, Bool.not_true, Bool.false_eq_true, or_false, DMX_CHANNELS]
    omega
  have hnc : ¬((!isConnected st now) = true) := by simp [hconn]
  have hcall : ∀ d : Nat → Nat, st.lastPacketSize > start →
      readChannels st (some d) start count now
        = (min count (st.lastPacketSize - start),
            some (memcpy d st.dmxData start (min count (st.lastPacketSize - start)))) := by
    intro d hgt
    have hav : u16 (st.lastPacketSize - start) = st.lastPacketSize - start := by
      unfold u16; omega
    have hmin : (if count < st.lastPacketSize - start then count
        else st.lastPacketSize - start) = min count (st.lastPacketSize - start) := by
      split <;> omega
    simp only [readChannels, if_neg hguard, if_neg hnc, if_pos hgt, hav, hmin]
  constructor
  · intro hgt
    refine ⟨memcpy dest st.dmxData start (min count (st.lastPacketSize - start)),
      hcall dest hgt, ?_, ?_, rfl, ?_⟩
    · intro i hi
      simp only [memcpy, hi, if_true]
    · intro i hi
      have : ¬ i < min count (st.lastPacketSize - start) := by omega
      simp only [memcpy, this, if_false]
    · show (readChannels st _ start count now).1 = _
      rw [hcall _ hgt]
  · intro hle
    have hng : ¬ st.lastPacketSize > start := by omega
    simp only [readChannels, if_neg hguard, if_neg hnc, if_neg hng]

set_option maxRecDepth 100000

/-- The scenario of the spec: with a live frame of size 513, `readChannels(buf, 500, 20)`
returns 13 both times and leaves `buf[13..20)` untouched. -/
theorem C5_witness :
    Reachable exFullFrame ∧ exFullFrame.initialized = true ∧
      exFullFrame.lastPacketSize = 513 ∧
      (((300 : Nat) : Int) - (exFullFrame.lastPacketTime : Int)) % 4294967296 < 1000 ∧
      (1 : Nat) ≤ 500 ∧ (500 : Nat) ≤ 512 ∧
      ((exFullFrame.lastPacketSize > 500 →
        ∃ dest' : Nat → Nat,
          readChannels exFullFrame (some (fun _ => 77)) 500 20 300
              = (min 20 (exFullFrame.lastPacketSize - 500), some dest') ∧
            (∀ i, i < min 20 (exFullFrame.lastPacketSize - 500) →
              dest' i = exFullFrame.dmxData (500 + i)) ∧
            (∀ i, min 20 (exFullFrame.lastPacketSize - 500) ≤ i → dest' i = (fun _ => 77) i) ∧
            step exFullFrame (Op.readChannels (some (fun _ => 77)) 500 20 300) = exFullFrame ∧
            (readChannels (step exFullFrame (Op.readChannels (some (fun _ => 77)) 500 20 300))
                (some dest') 500 20 300).1 = min 20 (exFullFrame.lastPacketSize - 500)) ∧
        (exFullFrame.lastPacketSize ≤ 500 →
          readChannels exFullFrame (some (fun _ => 77)) 500 20 300
            = (0, some (fun _ => 77)))) ∧
      min 20 (exFullFrame.lastPacketSize - 500) = 13 :=
  ⟨⟨_, rfl⟩, by decide, by decide, by decide, by decide, by decide,
    C5_readChannels_copies_available exFullFrame (fun _ => 77) 500 20 300 ⟨_, rfl⟩ (by decide)
      (by decide) (by decide) (by decide),
    by decide⟩

/-- Within one session the timeout is as documented: take a reachable, initialised receiver
with a non-empty working buffer, let `processBreak` publish at time `t` on the 32-bit clock,
and let any operations follow that stay in the session and publish nothing. Then
`isConnected` at time `now` is true exactly when `(now - t) mod 2^32 < 1000`: true at `t`,
true 999 ms later, false 1000 ms later, the clock wrapping modulo `2^32`. -/
theorem isConnected_timeout_in_session (st0 : State) (ops : List Op) (t now : Nat)
    (hr : Reachable st0) (hinit : st0.initialized = true) (hbuf : 0 < st0.bufferIndex)
    (ht : t < 4294967296) (hq : quietOps (processBreak st0 t) ops = true) :
    (isConnected (run (processBreak st0 t) ops) now = true ↔
        ((now : Int) - (t : Int)) % 4294967296 < 1000) ∧
      isConnected (run (processBreak st0 t) ops) t = true ∧
      isConnected (run (processBreak st0 t) ops) ((t + 999) % 4294967296) = true ∧
      isConnected (run (processBreak st0 t) ops) ((t + 1000) % 4294967296) = false := by
  have hidx := (Inv_of_Reachable st0 hr).index_le
  unfold DMX_BUFFER_SIZE at hidx
  obtain ⟨h1, h2⟩ := quietOps_fields ops (processBreak st0 t) hq
  have hpi : (processBreak st0 t).initialized = true := by
    rw [processBreak_nonempty st0 t hbuf (by omega)]
    exact hinit
  have hpt : (processBreak st0 t).lastPacketTime = t := by
    rw [processBreak_nonempty st0 t hbuf (by omega)]
    exact millis_of_lt t ht
  exact isConnected_boundary _ t now (h1.trans hpi) (h2.trans hpt) ht

theorem isConnected_timeout_in_session_wraps :
    Reachable exFourBytes ∧ exFourBytes.initialized = true ∧ 0 < exFourBytes.bufferIndex ∧
      (4294967000 : Nat) < 4294967296 ∧
      quietOps (processBreak exFourBytes 4294967000)
        [Op.onReceive [7, 0, 1], Op.read 1 4294967100, Op.getPacketRate 4294967200] = true ∧
      ((isConnected (run (processBreak exFourBytes 4294967000)
            [Op.onReceive [7, 0, 1], Op.read 1 4294967100, Op.getPacketRate 4294967200]) 500
          = true ↔ (((500 : Nat) : Int) - ((4294967000 : Nat) : Int)) % 4294967296 < 1000) ∧
        isConnected (run (processBreak exFourBytes 4294967000)
          [Op.onReceive [7, 0, 1], Op.read 1 4294967100, Op.getPacketRate 4294967200])
          4294967000 = true ∧
        isConnected (run (processBreak exFourBytes 4294967000)
          [Op.onReceive [7, 0, 1], Op.read 1 4294967100, Op.getPacketRate 4294967200])
          ((4294967000 + 999) % 4294967296) = true ∧
        isConnected (run (processBreak exFourBytes 4294967000)
          [Op.onReceive [7, 0, 1], Op.read 1 4294967100, Op.getPacketRate 4294967200])
          ((4294967000 + 1000) % 4294967296) = false) :=
  ⟨⟨_, rfl⟩, by decide, by decide, by decide, by decide,
    isConnected_timeout_in_session exFourBytes
      [Op.onReceive [7, 0, 1], Op.read 1 4294967100, Op.getPacketRate 4294967200]
      4294967000 500 ⟨_, rfl⟩ (by decide) (by decide) (by decide) (by decide)⟩

/-- C6, the code at the failing input: the only publish happens at time `200` and `begin()`
is called again at time `900`, which sets `lastPacketTime = 900`; `isConnected()` at time
`1200`, that is 1000 ms after the publish, returns true, and so it does up to time `1899`. -/
theorem C6_isConnected_after_restart :
    Reachable exRebegun ∧ exRebegun.initialized = true ∧
      publishCount ctor [Op.begin 2 6 4 5 true 100 100, Op.onReceive [9, 0, 255, 17],
        Op.onReceiveError UART_BREAK_ERROR 200, Op.begin 2 6 4 5 true 900 900] = 1 ∧
      publishes (run ctor [Op.begin 2 6 4 5 true 100 100, Op.onReceive [9, 0, 255, 17]])
        (Op.onReceiveError UART_BREAK_ERROR 200) = true ∧
      exRebegun.lastPacketTime = 900 ∧
      isConnected exRebegun ((200 + 1000) % 4294967296) = true ∧
      isConnected exRebegun 1899 = true ∧
      ¬ ((((200 + 1000 : Nat) : Int) - ((200 : Nat) : Int)) % 4294967296 < 1000) :=
  ⟨⟨_, rfl⟩, by decide, by decide, by decide, by decide, by decide, by decide, by decide⟩

/-- C7, as the claim states it, fails: in the reachable state `exWrap` the working buffer
holds one byte and `packetCount` is `2^32 - 1`; `processBreak` finds the buffer non-empty,
publishes, and `packetCount` becomes `0`: it does not grow by one, it decreases. -/
theorem C7_counterexample :
    Reachable exWrap ∧ exWrap.bufferIndex = 1 ∧ exWrap.packetCount = 4294967295 ∧
      (processBreak exWrap 0).packetCount = 0 ∧
      ¬ ((processBreak exWrap 0).packetCount = exWrap.packetCount + 1) ∧
      (processBreak exWrap 0).packetCount < exWrap.packetCount := by
  have hr : Reachable exWrap := ⟨wrapOps, rfl⟩
  have hidx : exWrap.bufferIndex = 1 := (run_framesThenByte 4294967295).1
  have hpc : exWrap.packetCount = 4294967295 := (run_framesThenByte 4294967295).2
  have hbrk := processBreak_packetCount exWrap 0 (Inv_of_Reachable exWrap hr)
  rw [hidx, hpc] at hbrk
  have h0 : (processBreak exWrap 0).packetCount = 0 := hbrk
  refine ⟨hr, hidx, hpc, h0, ?_, ?_⟩
  · rw [h0, hpc]; decide
  · rw [h0, hpc]; decide

/-- C7, amended: `packetCount` is a 32-bit counter. From a reachable state, after any
sequence of operations it is the old value plus the number of publishing operations, modulo
`2^32`; one operation adds one modulo `2^32` when it is a `processBreak` that finds a
non-empty working buffer and leaves it unchanged otherwise (`processBreak` with an empty
buffer, `processData`, the reads, `getPacketRate`, `begin`, `end`); and it decreases only by
wrapping from `2^32 - 1` to `0`. -/
theorem C7_packetCount_counts_publishes_mod (st : State) (ops : List Op) (hr : Reachable st) :
    (run st ops).packetCount = (st.packetCount + publishCount st ops) % 4294967296 ∧
      (∀ op, (step st op).packetCount =
        if publishes st op then (st.packetCount + 1) % 4294967296 else st.packetCount) ∧
      (∀ t, (processBreak st t).packetCount =
        if 0 < st.bufferIndex then (st.packetCount + 1) % 4294967296 else st.packetCount) ∧
      (∀ avail, (processData st avail).1.packetCount = st.packetCount) ∧
      (∀ op, st.packetCount ≤ (step st op).packetCount ∨
        (st.packetCount = 4294967295 ∧ (step st op).packetCount = 0)) := by
  have hinv := Inv_of_Reachable st hr
  refine ⟨run_packetCount ops st hinv, fun op => step_packetCount st op hinv,
    fun t => processBreak_packetCount st t hinv, processData_packetCount st, ?_⟩
  intro op
  have hlt := hinv.count_lt
  rw [step_packetCount st op hinv]
  split <;> omega

theorem C7_witness :
    Reachable exFourBytes ∧
      ((run exFourBytes [Op.onReceiveError UART_BREAK_ERROR 200, Op.read 1 300,
            Op.onReceiveError UART_BREAK_ERROR 250]).packetCount
          = (exFourBytes.packetCount + publishCount exFourBytes
              [Op.onReceiveError UART_BREAK_ERROR 200, Op.read 1 300,
                Op.onReceiveError UART_BREAK_ERROR 250]) % 4294967296 ∧
        (∀ op, (step exFourBytes op).packetCount =
          if publishes exFourBytes op then (exFourBytes.packetCount + 1) % 4294967296
          else exFourBytes.packetCount) ∧
        (∀ t, (processBreak exFourBytes t).packetCount =
          if 0 < exFourBytes.bufferIndex then (exFourBytes.packetCount + 1) % 4294967296
          else exFourBytes.packetCount) ∧
        (∀ avail, (processData exFourBytes avail).1.packetCount = exFourBytes.packetCount) ∧
        (∀ op, exFourBytes.packetCount ≤ (step exFourBytes op).packetCount ∨
          (exFourBytes.packetCount = 4294967295 ∧ (step exFourBytes op).packetCount = 0))) ∧
      publishCount exFourBytes [Op.onReceiveError UART_BREAK_ERROR 200, Op.read 1 300,
        Op.onReceiveError UART_BREAK_ERROR 250] = 1 :=
  ⟨⟨_, rfl⟩,
    C7_packetCount_counts_publishes_mod exFourBytes
      [Op.onReceiveError UART_BREAK_ERROR 200, Op.read 1 300,
        Op.onReceiveError UART_BREAK_ERROR 250] ⟨_, rfl⟩,
    by decide⟩

/-- C8: in every state, `read c` returns `0` for every channel `c` that is `0` or greater
than 512. -/
theorem C8_read_out_of_range (st : State) (c now : Nat) (hc : c = 0 ∨ c > 512) :
    read st c now = 0 := by
  unfold read
  have h : c = 0 ∨ c > DMX_CHANNELS ∨ (!st.initialized) = true := by
    unfold DMX_CHANNELS
    omega
  rw [if_pos h]

theorem C8_witness :
    ((513 : Nat) = 0 ∨ (513 : Nat) > 512) ∧ read exPublished 513 300 = 0 :=
  ⟨by decide, C8_read_out_of_range exPublished 513 300 (by decide)⟩

/-- C9, the code at the failing input: after `begin()` at time `5000` on a fresh object no
frame has been published (`packetCount = 0`, no operation of the session publishes), yet
`timeSinceLastPacket()` at time `5100` returns `100`, not the sentinel `0xFFFFFFFF`. -/
theorem C9_timeSinceLastPacket_after_begin :
    exBegun.initialized = true ∧ exBegun.packetCount = 0 ∧
      publishCount ctor [Op.begin 2 6 4 5 true 5000 5000] = 0 ∧
      timeSinceLastPacket exBegun 5100 = 100 ∧
      timeSinceLastPacket exBegun 5100 ≠ 0xFFFFFFFF := by
  decide

/-- C10, the code at the failing input: after `begin()` at time `5000` on a fresh object no
frame has been published (`packetCount = 0`, no operation of the session publishes), yet
`isConnected()` at time `5100` returns true. -/
theorem C10_isConnected_after_begin :
    exBegun.initialized = true ∧ exBegun.packetCount = 0 ∧
      publishCount ctor [Op.begin 2 6 4 5 true 5000 5000] = 0 ∧
      isConnected exBegun 5100 = true := by
  decide

/-! ## After `end()` -/

theorem end_initialized (st : State) : (end_ st).initialized = false := by
  unfold end_
  cases h : st.initialized <;> simp [h]

theorem processBreak_initialized (st : State) (t : Nat) :
    (processBreak st t).initialized = st.initialized := by
  unfold processBreak
  dsimp only
  split_ifs <;> rfl

/-- An operation other than `begin` leaves an uninitialised receiver uninitialised. -/
theorem step_uninitialized (st : State) (op : Op) (h : st.initialized = false)
    (hb : isBegin op = false) : (step st op).initialized = false := by
  cases op with
  | begin u rx tx en ok c1 c2 => simp [isBegin] at hb
  | end_ => exact end_initialized st
  | onReceive avail =>
    show (if st.dmxSerial then (onReceive st avail).1 else st).initialized = false
    unfold onReceive
    split
    · split
      · rw [(processData_fields st avail).1]; exact h
      · exact h
    · exact h
  | onReceiveError e c =>
    show (if st.dmxSerial then onReceiveError st e c else st).initialized = false
    unfold onReceiveError
    split
    · split
      · rw [processBreak_initialized]; exact h
      · exact h
    · exact h
  | getPacketRate c => rw [← h]; exact (getPacketRate_fields st c).1
  | read _ _ => exact h
  | readChannels _ _ _ _ => exact h
  | isConnected _ => exact h
  | timeSinceLastPacket _ => exact h
  | getPacketCount => exact h
  | getErrorCount => exact h
  | getLastPacketSize => exact h
  | getBuffer => exact h

theorem run_uninitialized (ops : List Op) :
    ∀ st : State, st.initialized = false → noBegin ops = true →
      (run st ops).initialized = false := by
  induction ops with
  | nil => intro st h _; exact h
  | cons op ops ih =>
    intro st h hb
    have hb2 : isBegin op = false ∧ noBegin ops = true := by
      simpa [noBegin] using hb
    exact ih (step st op) (step_uninitialized st op h hb2.1) hb2.2

/-- What every read operation gives on an uninitialised receiver. -/
theorem not_ready (s : State) (h : s.initialized = false) :
    (∀ c now, read s c now = 0) ∧
      (∀ buffer start count now, readChannels s buffer start count now = (0, buffer)) ∧
      (∀ now, isConnected s now = false) ∧
      (∀ now, timeSinceLastPacket s now = 0xFFFFFFFF) ∧
      (∀ now, (getPacketRate s now).2 = ⟨0, 1⟩ ∧ (getPacketRate s now).2.toRat = some 0 ∧
        (getPacketRate s now).1 = s) := by
  refine ⟨?_, ?_, ?_, ?_, ?_⟩
  · intro c now
    simp [read, h]
  · intro buffer start count now
    cases buffer with
    | none => rfl
    | some dest => simp [readChannels, h]
  · intro now
    simp [isConnected, h]
  · intro now
    simp [timeSinceLastPacket, h]
  · intro now
    simp [getPacketRate, h, Rate.toRat]

/-- C11: `end()` changes nothing on an uninitialised receiver and `end(); end()` is `end()`;
in every state reached from `end()` by operations other than `begin`, `read` gives `0` for
every channel, `readChannels` returns `0` and leaves the destination untouched,
`isConnected` is false, `timeSinceLastPacket` is `0xFFFFFFFF`, and `getPacketRate` is `0`
and changes nothing, whatever frame was published before. -/
theorem C11_end_idempotent_not_ready (st : State) (ops : List Op) (hnb : noBegin ops = true) :
    (st.initialized = false → end_ st = st) ∧
      end_ (end_ st) = end_ st ∧
      (∀ c now, read (run (end_ st) ops) c now = 0) ∧
      (∀ buffer start count now,
        readChannels (run (end_ st) ops) buffer start count now = (0, buffer)) ∧
      (∀ now, isConnected (run (end_ st) ops) now = false) ∧
      (∀ now, timeSinceLastPacket (run (end_ st) ops) now = 0xFFFFFFFF) ∧
      (∀ now, (getPacketRate (run (end_ st) ops) now).2 = ⟨0, 1⟩ ∧
        (getPacketRate (run (end_ st) ops) now).2.toRat = some 0 ∧
        (getPacketRate (run (end_ st) ops) now).1 = run (end_ st) ops) := by
  have hu : (run (end_ st) ops).initialized = false :=
    run_uninitialized ops (end_ st) (end_initialized st) hnb
  obtain ⟨h1, h2, h3, h4, h5⟩ := not_ready (run (end_ st) ops) hu
  refine ⟨?_, ?_, h1, h2, h3, h4, h5⟩
  · intro h
    simp [end_, h]
  · have := end_initialized st
    generalize end_ st = s at this
    simp [end_, this]

theorem C11_witness :
    noBegin [Op.read 1 300, Op.onReceive [1, 2], Op.onReceiveError UART_BREAK_ERROR 400,
        Op.end_, Op.getPacketRate 2000] = true ∧
      ((exPublished.initialized = false → end_ exPublished = exPublished) ∧
        end_ (end_ exPublished) = end_ exPublished ∧
        (∀ c now, read (run (end_ exPublished) [Op.read 1 300, Op.onReceive [1, 2],
          Op.onReceiveError UART_BREAK_ERROR 400, Op.end_, Op.getPacketRate 2000]) c now = 0) ∧
        (∀ buffer start count now,
          readChannels (run (end_ exPublished) [Op.read 1 300, Op.onReceive [1, 2],
            Op.onReceiveError UART_BREAK_ERROR 400, Op.end_, Op.getPacketRate 2000])
            buffer start count now = (0, buffer)) ∧
        (∀ now, isConnected (run (end_ exPublished) [Op.read 1 300, Op.onReceive [1, 2],
          Op.onReceiveError UART_BREAK_ERROR 400, Op.end_, Op.getPacketRate 2000]) now
            = false) ∧
        (∀ now, timeSinceLastPacket (run (end_ exPublished) [Op.read 1 300,
          Op.onReceive [1, 2], Op.onReceiveError UART_BREAK_ERROR 400, Op.end_,
          Op.getPacketRate 2000]) now = 0xFFFFFFFF) ∧
        (∀ now, (getPacketRate (run (end_ exPublished) [Op.read 1 300, Op.onReceive [1, 2],
            Op.onReceiveError UART_BREAK_ERROR 400, Op.end_, Op.getPacketRate 2000]) now).2
              = ⟨0, 1⟩ ∧
          (getPacketRate (run (end_ exPublished) [Op.read 1 300, Op.onReceive [1, 2],
            Op.onReceiveError UART_BREAK_ERROR 400, Op.end_, Op.getPacketRate 2000]) now).2.toRat
              = some 0 ∧
          (getPacketRate (run (end_ exPublished) [Op.read 1 300, Op.onReceive [1, 2],
            Op.onReceiveError UART_BREAK_ERROR 400, Op.end_, Op.getPacketRate 2000]) now).1
              = run (end_ exPublished) [Op.read 1 300, Op.onReceive [1, 2],
                Op.onReceiveError UART_BREAK_ERROR 400, Op.end_, Op.getPacketRate 2000])) :=
  ⟨by decide,
    C11_end_idempotent_not_ready exPublished
      [Op.read 1 300, Op.onReceive [1, 2], Op.onReceiveError UART_BREAK_ERROR 400, Op.end_,
        Op.getPacketRate 2000] (by decide)⟩

/-- C12, the code at the failing input: a frame `[0, 255, 17]` is published in a first
session and two more bytes arrive; after `end()` and `begin()` at time `5000`, with no
operation of the new session yet, the working buffer still holds two bytes, `dmxData[1]` is
still `255`, and `read(1)` at time `5100` returns `255`, a byte of the previous session. -/
theorem C12_restart_keeps_previous_session :
    exRestarted.initialized = true ∧
      exRestarted.bufferIndex = 2 ∧
      exRestarted.dmxData 1 = 255 ∧
      exRestarted.lastPacketSize = 3 ∧
      read exRestarted 1 5100 = 255 := by
  decide

/-! ## The rate sample -/

theorem end_lastPacketSize (st : State) : (end_ st).lastPacketSize = st.lastPacketSize := by
  unfold end_
  split <;> rfl

theorem begin_lastPacketSize (st : State) (u : Nat) (rx tx en : Int) (ok : Bool)
    (c1 c2 : Nat) : (begin st u rx tx en ok c1 c2).lastPacketSize = st.lastPacketSize := by
  unfold begin
  cases ok <;> cases hi : st.initialized <;> simp [end_, hi]

theorem processData_lastPacketSize (st : State) (avail : List Nat) :
    (processData st avail).1.lastPacketSize = st.lastPacketSize := by
  unfold processData
  split <;> rfl

theorem getPacketRate_lastPacketSize (st : State) (c : Nat) :
    (getPacketRate st c).1.lastPacketSize = st.lastPacketSize := by
  rcases getPacketRate_state st c with he | he <;> rw [he]

theorem processBreak_lastPacketSize (st : State) (t : Nat) (h : Inv st) :
    (0 < st.bufferIndex → 1 ≤ (processBreak st t).lastPacketSize) ∧
      (st.bufferIndex = 0 → (processBreak st t).lastPacketSize = st.lastPacketSize) := by
  have hidx := h.index_le
  unfold DMX_BUFFER_SIZE at hidx
  constructor
  · intro hp
    have h16 : st.bufferIndex < 65536 := by omega
    rw [processBreak_nonempty st t hp h16]
    show 1 ≤ min (st.bufferIndex - (if st.bufferIndex ≥ 2 then 1 else 0)) 513
    split <;> omega
  · intro h0
    rw [processBreak_empty st t h0]

/-- One operation: a publishing one leaves a size of at least 1, any other one leaves the
size as it is. -/
theorem step_lastPacketSize (st : State) (op : Op) (h : Inv st) :
    (publishes st op = true → 1 ≤ (step st op).lastPacketSize) ∧
      (publishes st op = false → (step st op).lastPacketSize = st.lastPacketSize) := by
  cases op with
  | begin u rx tx en ok c1 c2 =>
    exact ⟨fun hp => by simp [publishes] at hp,
      fun _ => begin_lastPacketSize st u rx tx en ok c1 c2⟩
  | end_ => exact ⟨fun hp => by simp [publishes] at hp, fun _ => end_lastPacketSize st⟩
  | onReceive avail =>
    refine ⟨fun hp => by simp [publishes] at hp, fun _ => ?_⟩
    show (if st.dmxSerial then (onReceive st avail).1 else st).lastPacketSize = _
    unfold onReceive
    split
    · split
      · exact processData_lastPacketSize st avail
      · rfl
    · rfl
  | onReceiveError e c =>
    obtain ⟨hb1, hb2⟩ := processBreak_lastPacketSize st c h
    constructor
    · intro hp
      have hp2 : ((st.dmxSerial = true ∧ st.instancePtr = true) ∧ e = UART_BREAK_ERROR) ∧
          0 < st.bufferIndex := by
        simpa [publishes] using hp
      show 1 ≤ (if st.dmxSerial then onReceiveError st e c else st).lastPacketSize
      unfold onReceiveError
      rw [if_pos hp2.1.1.1, if_pos ⟨hp2.1.1.2, hp2.1.2⟩]
      exact hb1 hp2.2
    · intro hp
      show (if st.dmxSerial then onReceiveError st e c else st).lastPacketSize = _
      unfold onReceiveError
      by_cases hs : st.dmxSerial = true
      · by_cases hg : st.instancePtr = true ∧ e = UART_BREAK_ERROR
        · rw [if_pos hs, if_pos hg]
          apply hb2
          simp [publishes, hs, hg.1, hg.2] at hp
          exact hp
        · rw [if_pos hs, if_neg hg]
      · rw [if_neg hs]
  | getPacketRate c =>
    exact ⟨fun hp => by simp [publishes] at hp, fun _ => getPacketRate_lastPacketSize st c⟩
  | read _ _ => exact ⟨fun hp => by simp [publishes] at hp, fun _ => rfl⟩
  | readChannels _ _ _ _ => exact ⟨fun hp => by simp [publishes] at hp, fun _ => rfl⟩
  | isConnected _ => exact ⟨fun hp => by simp [publishes] at hp, fun _ => rfl⟩
  | timeSinceLastPacket _ => exact ⟨fun hp => by simp [publishes] at hp, fun _ => rfl⟩
  | getPacketCount => exact ⟨fun hp => by simp [publishes] at hp, fun _ => rfl⟩
  | getErrorCount => exact ⟨fun hp => by simp [publishes] at hp, fun _ => rfl⟩
  | getLastPacketSize => exact ⟨fun hp => by simp [publishes] at hp, fun _ => rfl⟩
  | getBuffer => exact ⟨fun hp => by simp [publishes] at hp, fun _ => rfl⟩

theorem run_lastPacketSize (ops : List Op) :
    ∀ st : State, Inv st →
      (publishCount st ops = 0 → (run st ops).lastPacketSize = st.lastPacketSize) ∧
        (0 < publishCount st ops → 1 ≤ (run st ops).lastPacketSize) ∧
        (1 ≤ st.lastPacketSize → 1 ≤ (run st ops).lastPacketSize) := by
  induction ops with
  | nil =>
    intro st _
    exact ⟨fun _ => rfl, fun hp => by simp [publishCount] at hp, fun h1 => h1⟩
  | cons op ops ih =>
    intro st h
    obtain ⟨i1, i2, i3⟩ := ih (step st op) (Inv_step st op h)
    obtain ⟨s1, s2⟩ := step_lastPacketSize st op h
    have hcount : publishCount st (op :: ops)
        = (if publishes st op then 1 else 0) + publishCount (step st op) ops := rfl
    cases hp : publishes st op
    · rw [hcount, hp]
      have e := s2 hp
      refine ⟨fun h0 => ?_, fun h0 => ?_, fun h1 => ?_⟩
      · exact (i1 (by simpa using h0)).trans e
      · exact i2 (by simpa using h0)
      · exact i3 (by rw [e]; exact h1)
    · rw [hcount, hp]
      have e := s1 hp
      refine ⟨fun h0 => ?_, fun _ => i3 e, fun _ => i3 e⟩
      simp at h0

/-- C14, as the claim states it, fails: a freshly constructed object is a reachable state
and `getLastPacketSize()` returns `0` there, outside `1..=513`. -/
theorem C14_counterexample :
    Reachable ctor ∧ getLastPacketSize ctor = 0 ∧
      ¬ (1 ≤ getLastPacketSize ctor ∧ getLastPacketSize ctor ≤ 513) :=
  ⟨⟨[], rfl⟩, rfl, by decide⟩

/-- C14, amended: after any sequence of operations on a freshly constructed object,
`getLastPacketSize()` is at most 513; it is `0` as long as no operation has published a
frame and at least `1` once one has. -/
theorem C14_getLastPacketSize_range (ops : List Op) :
    getLastPacketSize (run ctor ops) ≤ 513 ∧
      (publishCount ctor ops = 0 → getLastPacketSize (run ctor ops) = 0) ∧
      (0 < publishCount ctor ops → 1 ≤ getLastPacketSize (run ctor ops)) := by
  obtain ⟨h1, h2, _⟩ := run_lastPacketSize ops ctor Inv_ctor
  exact ⟨(Inv_run ops ctor Inv_ctor).size_le, h1, h2⟩

theorem C14_witness :
    (getLastPacketSize (run ctor [Op.begin 2 6 4 5 true 100 100, Op.onReceive [9, 0, 255, 17],
        Op.onReceiveError UART_BREAK_ERROR 200]) ≤ 513 ∧
      (publishCount ctor [Op.begin 2 6 4 5 true 100 100, Op.onReceive [9, 0, 255, 17],
          Op.onReceiveError UART_BREAK_ERROR 200] = 0 →
        getLastPacketSize (run ctor [Op.begin 2 6 4 5 true 100 100,
          Op.onReceive [9, 0, 255, 17], Op.onReceiveError UART_BREAK_ERROR 200]) = 0) ∧
      (0 < publishCount ctor [Op.begin 2 6 4 5 true 100 100, Op.onReceive [9, 0, 255, 17],
          Op.onReceiveError UART_BREAK_ERROR 200] →
        1 ≤ getLastPacketSize (run ctor [Op.begin 2 6 4 5 true 100 100,
          Op.onReceive [9, 0, 255, 17], Op.onReceiveError UART_BREAK_ERROR 200]))) ∧
      0 < publishCount ctor [Op.begin 2 6 4 5 true 100 100, Op.onReceive [9, 0, 255, 17],
        Op.onReceiveError UART_BREAK_ERROR 200] ∧
      getLastPacketSize (run ctor [Op.begin 2 6 4 5 true 100 100, Op.onReceive [9, 0, 255, 17],
        Op.onReceiveError UART_BREAK_ERROR 200]) = 3 :=
  ⟨C14_getLastPacketSize_range [Op.begin 2 6 4 5 true 100 100, Op.onReceive [9, 0, 255, 17],
      Op.onReceiveError UART_BREAK_ERROR 200],
    by decide, by decide⟩

/-! ## The error counter -/

/-- No operation writes `errorCount`. -/
theorem step_errorCount (st : State) (op : Op) : (step st op).errorCount = st.errorCount := by
  cases op with
  | begin u rx tx en ok c1 c2 =>
    show (begin st u rx tx en ok c1 c2).errorCount = _
    unfold begin
    cases ok <;> cases hi : st.initialized <;> simp [end_, hi]
  | end_ =>
    show (end_ st).errorCount = _
    unfold end_
    split <;> rfl
  | onReceive avail =>
    show (if st.dmxSerial then (onReceive st avail).1 else st).errorCount = _
    unfold onReceive processData
    split_ifs <;> rfl
  | onReceiveError e c =>
    show (if st.dmxSerial then onReceiveError st e c else st).errorCount = _
    unfold onReceiveError processBreak
    dsimp only
    split_ifs <;> rfl
  | getPacketRate c =>
    show (getPacketRate st c).1.errorCount = _
    rcases getPacketRate_state st c with he | he <;> rw [he]
  | read _ _ => rfl
  | readChannels _ _ _ _ => rfl
  | isConnected _ => rfl
  | timeSinceLastPacket _ => rfl
  | getPacketCount => rfl
  | getErrorCount => rfl
  | getLastPacketSize => rfl
  | getBuffer => rfl

theorem run_errorCount (ops : List Op) :
    ∀ st : State, (run st ops).errorCount = st.errorCount := by
  induction ops with
  | nil => intro st; rfl
  | cons op ops ih => intro st; exact (ih (step st op)).trans (step_errorCount st op)

/-- C15, as the claim states it, fails: a framing error reported to the error callback of a
receiver that holds four bytes leaves `errorCount` at `0`; it does not grow by one. -/
theorem C15_counterexample :
    getErrorCount exFourBytes = 0 ∧
      getErrorCount (step exFourBytes (Op.onReceiveError UART_FRAME_ERROR 300)) = 0 ∧
      ¬ (getErrorCount (step exFourBytes (Op.onReceiveError UART_FRAME_ERROR 300))
          = getErrorCount exFourBytes + 1) := by
  decide

/-- C15, amended: a reception error other than break, reported to the error callback,
leaves the whole receiver state as it is: the working buffer, its length and the published
frame are unchanged, and so is `errorCount`, which no operation increments (it is `0` after
every sequence of operations on a freshly constructed object). -/
theorem C15_other_errors_change_nothing (st : State) (e : hardwareSerial_error_t) (c : Nat)
    (ops : List Op) (he : e ≠ UART_BREAK_ERROR) :
    onReceiveError st e c = st ∧
      step st (Op.onReceiveError e c) = st ∧
      getErrorCount (step st (Op.onReceiveError e c)) = getErrorCount st ∧
      (step st (Op.onReceiveError e c)).dmxBuffer = st.dmxBuffer ∧
      (step st (Op.onReceiveError e c)).bufferIndex = st.bufferIndex ∧
      (step st (Op.onReceiveError e c)).dmxData = st.dmxData ∧
      (step st (Op.onReceiveError e c)).lastPacketSize = st.lastPacketSize ∧
      getErrorCount (run ctor ops) = 0 := by
  have h1 : onReceiveError st e c = st := by
    unfold onReceiveError
    rw [if_neg (fun h => he h.2)]
  have h2 : step st (Op.onReceiveError e c) = st := by
    show (if st.dmxSerial then onReceiveError st e c else st) = st
    rw [h1]
    split <;> rfl
  refine ⟨h1, h2, ?_, ?_, ?_, ?_, ?_, run_errorCount ops ctor⟩ <;> rw [h2]

theorem C15_witness :
    UART_PARITY_ERROR ≠ UART_BREAK_ERROR ∧
      (onReceiveError exFourBytes UART_PARITY_ERROR 300 = exFourBytes ∧
        step exFourBytes (Op.onReceiveError UART_PARITY_ERROR 300) = exFourBytes ∧
        getErrorCount (step exFourBytes (Op.onReceiveError UART_PARITY_ERROR 300))
          = getErrorCount exFourBytes ∧
        (step exFourBytes (Op.onReceiveError UART_PARITY_ERROR 300)).dmxBuffer
          = exFourBytes.dmxBuffer ∧
        (step exFourBytes (Op.onReceiveError UART_PARITY_ERROR 300)).bufferIndex
          = exFourBytes.bufferIndex ∧
        (step exFourBytes (Op.onReceiveError UART_PARITY_ERROR 300)).dmxData
          = exFourBytes.dmxData ∧
        (step exFourBytes (Op.onReceiveError UART_PARITY_ERROR 300)).lastPacketSize
          = exFourBytes.lastPacketSize ∧
        getErrorCount (run ctor [Op.begin 2 6 4 5 true 100 100,
          Op.onReceiveError UART_PARITY_ERROR 300]) = 0) :=
  ⟨by decide,
    C15_other_errors_change_nothing exFourBytes UART_PARITY_ERROR 300
      [Op.begin 2 6 4 5 true 100 100, Op.onReceiveError UART_PARITY_ERROR 300] (by decide)⟩

/-! ## The working buffer -/

/-- What the loop of `processData` does from an index within the capacity: the index
advances to `min (idx + m) 514`, the bytes that fit are stored at `idx, idx + 1, ...` in
arrival order, every other cell keeps its value, and the bytes that do not fit stay
unread. -/
theorem processDataLoop_spec (avail : List Nat) :
    ∀ (buf : Nat → Nat) (idx : Nat), idx ≤ 514 →
      (processDataLoop avail buf idx).2.1 = min (idx + avail.length) 514 ∧
        (processDataLoop avail buf idx).2.2 = avail.drop (514 - idx) ∧
        ∀ j, (processDataLoop avail buf idx).1 j =
          if idx ≤ j ∧ j < min (idx + avail.length) 514 then u8 (avail.getD (j - idx) 0)
          else buf j := by
  induction avail with
  | nil =>
    intro buf idx h
    refine ⟨?_, ?_, ?_⟩
    · show idx = min (idx + 0) 514
      omega
    · show ([] : List Nat) = List.drop (514 - idx) []
      rw [List.drop_nil]
    · intro j
      have hc : ¬(idx ≤ j ∧ j < min (idx + ([] : List Nat).length) 514) := by
        simp only [List.length_nil]
        omega
      rw [if_neg hc]
      rfl
  | cons b rest ih =>
    intro buf idx h
    unfold processDataLoop
    by_cases hlt : idx < DMX_BUFFER_SIZE
    · rw [if_pos hlt]
      unfold DMX_BUFFER_SIZE at hlt
      have hu : u16 (idx + 1) = idx + 1 := by unfold u16; omega
      rw [hu]
      obtain ⟨i1, i2, i3⟩ := ih (fun i => if i = idx then u8 b else buf i) (idx + 1) (by omega)
      refine ⟨?_, ?_, ?_⟩
      · rw [i1, List.length_cons]
        omega
      · rw [i2]
        have h514 : 514 - idx = (514 - (idx + 1)) + 1 := by omega
        rw [h514, List.drop_succ_cons]
      · intro j
        rw [i3 j, List.length_cons]
        by_cases hj : j = idx
        · subst hj
          have c1 : ¬(j + 1 ≤ j ∧ j < min (j + 1 + rest.length) 514) := by omega
          have c2 : j ≤ j ∧ j < min (j + (rest.length + 1)) 514 := by omega
          rw [if_neg c1, if_pos c2]
          simp
        · by_cases hgt : idx < j
          · have hsub : j - idx = (j - (idx + 1)) + 1 := by omega
            by_cases hin : j < min (idx + 1 + rest.length) 514
            · have c1 : idx + 1 ≤ j ∧ j < min (idx + 1 + rest.length) 514 := ⟨by omega, hin⟩
              have c2 : idx ≤ j ∧ j < min (idx + (rest.length + 1)) 514 := by omega
              rw [if_pos c1, if_pos c2, hsub, List.getD_cons_succ]
            · have c1 : ¬(idx + 1 ≤ j ∧ j < min (idx + 1 + rest.length) 514) :=
                fun hc => hin hc.2
              have c2 : ¬(idx ≤ j ∧ j < min (idx + (rest.length + 1)) 514) := by omega
              rw [if_neg c1, if_neg c2]
              simp [hj]
          · have c1 : ¬(idx + 1 ≤ j ∧ j < min (idx + 1 + rest.length) 514) := by omega
            have c2 : ¬(idx ≤ j ∧ j < min (idx + (rest.length + 1)) 514) := by omega
            rw [if_neg c1, if_neg c2]
            simp [hj]
    · rw [if_neg hlt]
      unfold DMX_BUFFER_SIZE at hlt
      have h514 : idx = 514 := by omega
      subst h514
      refine ⟨?_, ?_, ?_⟩
      · show 514 = min (514 + (b :: rest).length) 514
        omega
      · rfl
      · intro j
        have hc : ¬(514 ≤ j ∧ j < min (514 + (b :: rest).length) 514) := by omega
        rw [if_neg hc]

/-- Every operation keeps the length of the working buffer within the capacity. -/
theorem step_bufferIndex_le (s : State) (op : Op) (h : s.bufferIndex ≤ 514) :
    (step s op).bufferIndex ≤ 514 := by
  cases op with
  | begin u rx tx en ok c1 c2 =>
    have : (begin s u rx tx en ok c1 c2).bufferIndex = s.bufferIndex := by
      unfold begin
      cases ok <;> cases hi : s.initialized <;> simp [end_, hi]
    show (begin s u rx tx en ok c1 c2).bufferIndex ≤ 514
    rw [this]; exact h
  | end_ =>
    have : (end_ s).bufferIndex = s.bufferIndex := by
      unfold end_
      split <;> rfl
    show (end_ s).bufferIndex ≤ 514
    rw [this]; exact h
  | onReceive avail =>
    show (if s.dmxSerial then (onReceive s avail).1 else s).bufferIndex ≤ 514
    unfold onReceive processData
    split_ifs
    · exact h
    · exact processDataLoop_index avail _ _ h
    · exact h
    · exact h
  | onReceiveError e c =>
    show (if s.dmxSerial then onReceiveError s e c else s).bufferIndex ≤ 514
    unfold onReceiveError
    split_ifs
    · rw [processBreak_bufferIndex]; exact Nat.zero_le _
    · exact h
    · exact h
  | getPacketRate c =>
    show (getPacketRate s c).1.bufferIndex ≤ 514
    rcases getPacketRate_state s c with he | he <;> rw [he] <;> exact h
  | read _ _ => exact h
  | readChannels _ _ _ _ => exact h
  | isConnected _ => exact h
  | timeSinceLastPacket _ => exact h
  | getPacketCount => exact h
  | getErrorCount => exact h
  | getLastPacketSize => exact h
  | getBuffer => exact h

theorem getD_byte (l : List Nat) (i : Nat) (hi : i < l.length) (hb : ∀ x ∈ l, x < 256) :
    u8 (l.getD i 0) = l.getD i 0 := by
  have : l.getD i 0 < 256 := by
    rw [List.getD_eq_getElem _ _ hi]
    exact hb _ (List.getElem_mem hi)
  unfold u8
  omega

/-- C17: with the serial object present, a working buffer of length `n ≤ 514` and `m` bytes
available, `processData` stores the first `min m (514 - n)` of them, in arrival order, at
positions `n, n + 1, ...`, leaves every other position of the working buffer unchanged,
ends with length `min (n + m) 514`, leaves the bytes that do not fit unread, and leaves the
published frame, its size, its timestamp and `packetCount` unchanged. Every operation keeps
the length within 514. -/
theorem C17_processData_appends (st : State) (avail : List Nat) (n m : Nat)
    (hser : st.dmxSerial = true) (hn : st.bufferIndex = n) (hm : avail.length = m)
    (hle : n ≤ 514) (hbytes : ∀ b ∈ avail, b < 256) :
    (∀ i, i < min m (514 - n) →
        (processData st avail).1.dmxBuffer (n + i) = avail.getD i 0) ∧
      (∀ j, j < n → (processData st avail).1.dmxBuffer j = st.dmxBuffer j) ∧
      (∀ j, n + min m (514 - n) ≤ j → (processData st avail).1.dmxBuffer j = st.dmxBuffer j) ∧
      (processData st avail).1.bufferIndex = min (n + m) 514 ∧
      (processData st avail).2 = avail.drop (min m (514 - n)) ∧
      (processData st avail).1.dmxData = st.dmxData ∧
      (processData st avail).1.lastPacketSize = st.lastPacketSize ∧
      (processData st avail).1.lastPacketTime = st.lastPacketTime ∧
      (processData st avail).1.packetCount = st.packetCount ∧
      (∀ (s : State) (op : Op), s.bufferIndex ≤ 514 → (step s op).bufferIndex ≤ 514) := by
  subst hn hm
  obtain ⟨h1, h2, h3⟩ := processDataLoop_spec avail st.dmxBuffer st.bufferIndex hle
  have hpd : processData st avail =
      ({ st with
          dmxBuffer := (processDataLoop avail st.dmxBuffer st.bufferIndex).1
          bufferIndex := (processDataLoop avail st.dmxBuffer st.bufferIndex).2.1 },
        (processDataLoop avail st.dmxBuffer st.bufferIndex).2.2) := by
    unfold processData
    simp [hser]
  rw [hpd]
  refine ⟨?_, ?_, ?_, h1, ?_, rfl, rfl, rfl, rfl, step_bufferIndex_le⟩
  · intro i hi
    show (processDataLoop avail st.dmxBuffer st.bufferIndex).1 (st.bufferIndex + i) = _
    have hc : st.bufferIndex ≤ st.bufferIndex + i ∧
        st.bufferIndex + i < min (st.bufferIndex + avail.length) 514 := by omega
    rw [h3, if_pos hc, Nat.add_sub_cancel_left]
    exact getD_byte avail i (by omega) hbytes
  · intro j hj
    show (processDataLoop avail st.dmxBuffer st.bufferIndex).1 j = _
    have hc : ¬(st.bufferIndex ≤ j ∧ j < min (st.bufferIndex + avail.length) 514) := by omega
    rw [h3, if_neg hc]
  · intro j hj
    show (processDataLoop avail st.dmxBuffer st.bufferIndex).1 j = _
    have hc : ¬(st.bufferIndex ≤ j ∧ j < min (st.bufferIndex + avail.length) 514) := by omega
    rw [h3, if_neg hc]
  · show (processDataLoop avail st.dmxBuffer st.bufferIndex).2.2 = _
    rw [h2]
    by_cases hfit : avail.length ≤ 514 - st.bufferIndex
    · rw [Nat.min_eq_left hfit, List.drop_eq_nil_of_le hfit, List.drop_eq_nil_of_le (le_refl _)]
    · rw [Nat.min_eq_right (by omega)]

theorem C17_witness :
    exFourBytes.dmxSerial = true ∧ exFourBytes.bufferIndex = 4 ∧
      [10, 20, 30].length = 3 ∧ 4 ≤ 514 ∧ (∀ b ∈ [10, 20, 30], b < 256) ∧
      ((∀ i, i < min 3 (514 - 4) →
          (processData exFourBytes [10, 20, 30]).1.dmxBuffer (4 + i)
            = [10, 20, 30].getD i 0) ∧
        (∀ j, j < 4 →
          (processData exFourBytes [10, 20, 30]).1.dmxBuffer j = exFourBytes.dmxBuffer j) ∧
        (∀ j, 4 + min 3 (514 - 4) ≤ j →
          (processData exFourBytes [10, 20, 30]).1.dmxBuffer j = exFourBytes.dmxBuffer j) ∧
        (processData exFourBytes [10, 20, 30]).1.bufferIndex = min (4 + 3) 514 ∧
        (processData exFourBytes [10, 20, 30]).2 = [10, 20, 30].drop (min 3 (514 - 4)) ∧
        (processData exFourBytes [10, 20, 30]).1.dmxData = exFourBytes.dmxData ∧
        (processData exFourBytes [10, 20, 30]).1.lastPacketSize = exFourBytes.lastPacketSize ∧
        (processData exFourBytes [10, 20, 30]).1.lastPacketTime = exFourBytes.lastPacketTime ∧
        (processData exFourBytes [10, 20, 30]).1.packetCount = exFourBytes.packetCount ∧
        (∀ (s : State) (op : Op), s.bufferIndex ≤ 514 → (step s op).bufferIndex ≤ 514)) :=
  ⟨by decide, by decide, by decide, by decide, by decide,
    C17_processData_appends exFourBytes [10, 20, 30] 4 3 (by decide) (by decide) (by decide)
      (by decide) (by decide)⟩

/-! ## A frame from the first byte to the break -/

theorem getD_drop (l : List Nat) (n k : Nat) : (l.drop n).getD k 0 = l.getD (n + k) 0 := by
  simp [List.getD_eq_getElem?_getD, List.getElem?_drop]

theorem getD_append_left (l r : List Nat) (j : Nat) (h : j < l.length) :
    (l ++ r).getD j 0 = l.getD j 0 := by
  simp [List.getD_eq_getElem?_getD, List.getElem?_append_left h]

/-- One call of `processData` in a run: if the working buffer holds the first
`min |bs| 514` bytes of the stream `bs` and the rest of `bs` is still unread, then after
the call with a further chunk the same holds for `bs ++ chunk`. -/
theorem processData_stream (st : State) (bs chunk : List Nat) (hser : st.dmxSerial = true)
    (hidx : st.bufferIndex = min bs.length 514)
    (hbuf : ∀ j, j < min bs.length 514 → st.dmxBuffer j = u8 (bs.getD j 0)) :
    (processData st (bs.drop (min bs.length 514) ++ chunk)).1.bufferIndex
        = min (bs ++ chunk).length 514 ∧
      (processData st (bs.drop (min bs.length 514) ++ chunk)).2
        = (bs ++ chunk).drop (min (bs ++ chunk).length 514) ∧
      (∀ j, j < min (bs ++ chunk).length 514 →
        (processData st (bs.drop (min bs.length 514) ++ chunk)).1.dmxBuffer j
          = u8 ((bs ++ chunk).getD j 0)) ∧
      (processData st (bs.drop (min bs.length 514) ++ chunk)).1.dmxSerial = true ∧
      (processData st (bs.drop (min bs.length 514) ++ chunk)).1.initialized = st.initialized ∧
      (processData st (bs.drop (min bs.length 514) ++ chunk)).1.dmxData = st.dmxData ∧
      (processData st (bs.drop (min bs.length 514) ++ chunk)).1.packetCount
        = st.packetCount := by
  have hav : bs.drop (min bs.length 514) ++ chunk = (bs ++ chunk).drop (min bs.length 514) :=
    (List.drop_append_of_le_length (Nat.min_le_left _ _)).symm
  have hlen : (bs ++ chunk).length = bs.length + chunk.length := List.length_append _ _
  have havlen : ((bs ++ chunk).drop (min bs.length 514)).length
      = bs.length + chunk.length - min bs.length 514 := by
    rw [List.length_drop, hlen]
  rw [hav]
  obtain ⟨h1, h2, h3⟩ := processDataLoop_spec ((bs ++ chunk).drop (min bs.length 514))
    st.dmxBuffer (min bs.length 514) (Nat.min_le_right _ _)
  rw [havlen] at h1 h3
  have hpd : processData st ((bs ++ chunk).drop (min bs.length 514)) =
      ({ st with
          dmxBuffer := (processDataLoop ((bs ++ chunk).drop (min bs.length 514)) st.dmxBuffer
            (min bs.length 514)).1
          bufferIndex := (processDataLoop ((bs ++ chunk).drop (min bs.length 514))
            st.dmxBuffer (min bs.length 514)).2.1 },
        (processDataLoop ((bs ++ chunk).drop (min bs.length 514)) st.dmxBuffer
          (min bs.length 514)).2.2) := by
    unfold processData
    simp [hser, hidx]
  rw [hpd]
  refine ⟨?_, ?_, ?_, hser, rfl, rfl, rfl⟩
  · show (processDataLoop _ _ _).2.1 = _
    rw [h1, hlen]
    omega
  · show (processDataLoop _ _ _).2.2 = _
    rw [h2, List.drop_drop]
    by_cases hfit : (bs ++ chunk).length ≤ 514
    · rw [List.drop_eq_nil_of_le (by omega), List.drop_eq_nil_of_le (by omega)]
    · have e1 : min bs.length 514 + (514 - min bs.length 514) = 514 := by omega
      have e2 : min (bs ++ chunk).length 514 = 514 := by omega
      rw [e1, e2]
  · intro j hj
    show (processDataLoop _ _ _).1 j = _
    rw [h3 j]
    rw [hlen] at hj
    by_cases hge : min bs.length 514 ≤ j
    · have hc : min bs.length 514 ≤ j ∧
          j < min (min bs.length 514 + (bs.length + chunk.length - min bs.length 514)) 514 := by
        omega
      rw [if_pos hc, getD_drop]
      have e : min bs.length 514 + (j - min bs.length 514) = j := by omega
      rw [e]
    · have hc : ¬(min bs.length 514 ≤ j ∧
          j < min (min bs.length 514 + (bs.length + chunk.length - min bs.length 514)) 514) :=
        fun hc => hge hc.1
      rw [if_neg hc, hbuf j (by omega), getD_append_left bs chunk j (by omega)]

/-- A run of `processData` calls: the working buffer ends up holding the first
`min k 514` bytes of the `k` bytes that arrived, whatever the chunks. -/
theorem deliver_stream (chunks : List (List Nat)) :
    ∀ (st : State) (bs : List Nat), st.dmxSerial = true →
      st.bufferIndex = min bs.length 514 →
      (∀ j, j < min bs.length 514 → st.dmxBuffer j = u8 (bs.getD j 0)) →
      (deliver st (bs.drop (min bs.length 514)) chunks).1.bufferIndex
          = min (bs ++ chunks.flatten).length 514 ∧
        (∀ j, j < min (bs ++ chunks.flatten).length 514 →
          (deliver st (bs.drop (min bs.length 514)) chunks).1.dmxBuffer j
            = u8 ((bs ++ chunks.flatten).getD j 0)) ∧
        (deliver st (bs.drop (min bs.length 514)) chunks).1.initialized = st.initialized ∧
        (deliver st (bs.drop (min bs.length 514)) chunks).1.dmxData = st.dmxData ∧
        (deliver st (bs.drop (min bs.length 514)) chunks).1.packetCount = st.packetCount := by
  induction chunks with
  | nil =>
    intro st bs _ hidx hbuf
    simp only [List.flatten_nil, List.append_nil]
    exact ⟨hidx, hbuf, rfl, rfl, rfl⟩
  | cons chunk rest ih =>
    intro st bs hser hidx hbuf
    obtain ⟨p1, p2, p3, p4, p5, p6, p7⟩ := processData_stream st bs chunk hser hidx hbuf
    have hd : deliver st (bs.drop (min bs.length 514)) (chunk :: rest)
        = deliver (processData st (bs.drop (min bs.length 514) ++ chunk)).1
            (processData st (bs.drop (min bs.length 514) ++ chunk)).2 rest := rfl
    rw [hd, p2]
    obtain ⟨i1, i2, i3, i4, i5⟩ :=
      ih (processData st (bs.drop (min bs.length 514) ++ chunk)).1 (bs ++ chunk) p4 p1 p3
    rw [List.flatten_cons, ← List.append_assoc]
    exact ⟨i1, i2, i3.trans p5, i4.trans p6, i5.trans p7⟩

/-- C18: take a reachable, initialised receiver with an empty working buffer, let `k ≥ 2`
bytes `b0, ..., b(k-1)` arrive through any run of `processData` calls, in any chunks, and
let `processBreak` run at time `t`. Then a frame is published (`packetCount` grows by one
modulo `2^32`) of size `s = min k 514 - 1`, it holds `b1, ..., b(s)`, and at every time less
than 1000 ms after `t`, `read c` is `b(c+1)` for `1 ≤ c < s` and `0` for `c ≥ s`; for
`k > 514` the size is 513, the bytes from `b514` on being absent. -/
theorem C18_frame_end_to_end (st : State) (chunks : List (List Nat)) (b : List Nat)
    (k t now : Nat) (hr : Reachable st) (hinit : st.initialized = true)
    (hempty : st.bufferIndex = 0) (hb : chunks.flatten = b) (hk : b.length = k)
    (hk2 : 2 ≤ k) (hbytes : ∀ x ∈ b, x < 256) (ht : t < 4294967296) :
    getLastPacketSize (processBreak (deliver st [] chunks).1 t) = min k 514 - 1 ∧
      (∀ i, i < min k 514 - 1 →
        (processBreak (deliver st [] chunks).1 t).dmxData i = b.getD (i + 1) 0) ∧
      (processBreak (deliver st [] chunks).1 t).packetCount
        = (st.packetCount + 1) % 4294967296 ∧
      (processBreak (deliver st [] chunks).1 t).lastPacketTime = t ∧
      (((now : Int) - (t : Int)) % 4294967296 < 1000 →
        (∀ c, 1 ≤ c → c < min k 514 - 1 →
          read (processBreak (deliver st [] chunks).1 t) c now = b.getD (c + 1) 0) ∧
        (∀ c, min k 514 - 1 ≤ c →
          read (processBreak (deliver st [] chunks).1 t) c now = 0)) ∧
      (514 < k → getLastPacketSize (processBreak (deliver st [] chunks).1 t) = 513) := by
  subst hb hk
  have hinv := Inv_of_Reachable st hr
  have hser : st.dmxSerial = true := by rw [hinv.serial_init]; exact hinit
  obtain ⟨d1, d2, d3, d4, d5⟩ := deliver_stream chunks st [] hser
    (by simpa using hempty) (fun j hj => by simp at hj)
  simp only [List.length_nil, Nat.zero_min, List.drop_nil, List.nil_append] at d1 d2 d3 d4 d5
  have hpos : 0 < (deliver st [] chunks).1.bufferIndex := by omega
  have h16 : (deliver st [] chunks).1.bufferIndex < 65536 := by omega
  have hge : (deliver st [] chunks).1.bufferIndex ≥ 2 := by omega
  have hpb := processBreak_nonempty (deliver st [] chunks).1 t hpos h16
  simp only [hge, if_true] at hpb
  have hsz : min ((deliver st [] chunks).1.bufferIndex - 1) 513
      = min chunks.flatten.length 514 - 1 := by omega
  rw [hsz] at hpb
  have hsize : (processBreak (deliver st [] chunks).1 t).lastPacketSize
      = min chunks.flatten.length 514 - 1 := by rw [hpb]
  have hdata : ∀ i, i < min chunks.flatten.length 514 - 1 →
      (processBreak (deliver st [] chunks).1 t).dmxData i = chunks.flatten.getD (i + 1) 0 := by
    intro i hi
    rw [hpb]
    show memcpy _ _ 1 _ i = _
    unfold memcpy
    rw [if_pos hi, d2 (1 + i) (by omega), Nat.add_comm 1 i]
    exact getD_byte chunks.flatten (i + 1) (by omega) hbytes
  have hcount : (processBreak (deliver st [] chunks).1 t).packetCount
      = (st.packetCount + 1) % 4294967296 := by
    rw [hpb]
    show u32 ((deliver st [] chunks).1.packetCount + 1) = _
    rw [d5]
    rfl
  have htime : (processBreak (deliver st [] chunks).1 t).lastPacketTime = t := by
    rw [hpb]
    exact millis_of_lt t ht
  have hini : (processBreak (deliver st [] chunks).1 t).initialized = true := by
    rw [processBreak_initialized, d3]
    exact hinit
  refine ⟨hsize, hdata, hcount, htime, ?_, ?_⟩
  · intro hlive
    have hconn : isConnected (processBreak (deliver st [] chunks).1 t) now = true := by
      rw [isConnected_iff _ now hini, htime]
      exact hlive
    constructor
    · intro c hc1 hc2
      rw [read_live _ c now hini hconn, hsize, ← hdata c hc2]
      split_ifs <;> first | rfl | omega
    · intro c hc
      rw [read_live _ c now hini hconn, hsize]
      split_ifs <;> rfl
  · intro hover
    show (processBreak (deliver st [] chunks).1 t).lastPacketSize = 513
    rw [hsize]
    omega

theorem C18_witness :
    Reachable exBegun ∧ exBegun.initialized = true ∧ exBegun.bufferIndex = 0 ∧
      [[9, 0], [], [255, 17, 3]].flatten = [9, 0, 255, 17, 3] ∧
      [9, 0, 255, 17, 3].length = 5 ∧ 2 ≤ 5 ∧ (∀ x ∈ [9, 0, 255, 17, 3], x < 256) ∧
      (5200 : Nat) < 4294967296 ∧
      (getLastPacketSize (processBreak (deliver exBegun [] [[9, 0], [], [255, 17, 3]]).1 5200)
          = min 5 514 - 1 ∧
        (∀ i, i < min 5 514 - 1 →
          (processBreak (deliver exBegun [] [[9, 0], [], [255, 17, 3]]).1 5200).dmxData i
            = [9, 0, 255, 17, 3].getD (i + 1) 0) ∧
        (processBreak (deliver exBegun [] [[9, 0], [], [255, 17, 3]]).1 5200).packetCount
          = (exBegun.packetCount + 1) % 4294967296 ∧
        (processBreak (deliver exBegun [] [[9, 0], [], [255, 17, 3]]).1 5200).lastPacketTime
          = 5200 ∧
        ((((5300 : Nat) : Int) - ((5200 : Nat) : Int)) % 4294967296 < 1000 →
          (∀ c, 1 ≤ c → c < min 5 514 - 1 →
            read (processBreak (deliver exBegun [] [[9, 0], [], [255, 17, 3]]).1 5200) c 5300
              = [9, 0, 255, 17, 3].getD (c + 1) 0) ∧
          (∀ c, min 5 514 - 1 ≤ c →
            read (processBreak (deliver exBegun [] [[9, 0], [], [255, 17, 3]]).1 5200) c 5300
              = 0)) ∧
        (514 < 5 →
          getLastPacketSize
            (processBreak (deliver exBegun [] [[9, 0], [], [255, 17, 3]]).1 5200) = 513)) ∧
      read (processBreak (deliver exBegun [] [[9, 0], [], [255, 17, 3]]).1 5200) 1 5300
        = 255 :=
  ⟨⟨_, rfl⟩, by decide, by decide, by decide, by decide, by decide, by decide, by decide,
    C18_frame_end_to_end exBegun [[9, 0], [], [255, 17, 3]] [9, 0, 255, 17, 3] 5 5200 5300
      ⟨_, rfl⟩ (by decide) (by decide) (by decide) (by decide) (by decide) (by decide)
      (by decide),
    by decide⟩

/-! ## Bounds of the buffer accesses -/

/-- The copy of `processBreak` is the one `processBreakCopy` names. -/
theorem processBreak_copy (st : State) (t : Nat) :
    processBreak st t =
      match processBreakCopy st with
      | some (dataStart, copySize) =>
        { st with
          dmxData := memcpy st.dmxData st.dmxBuffer dataStart copySize
          lastPacketSize := copySize
          lastPacketTime := millis t
          packetCount := u32 (st.packetCount + 1)
          bufferIndex := 0 }
      | none => { st with bufferIndex := 0 } := by
  unfold processBreak processBreakCopy
  dsimp only
  split_ifs <;> rfl

/-- The value of `read` is the cell `readIndex` names, or `0`. -/
theorem read_index (st : State) (c now : Nat) :
    read st c now =
      match readIndex st c now with
      | some i => st.dmxData i
      | none => 0 := by
  unfold read readIndex
  split_ifs <;> rfl

/-- The copy of `readChannels` is the one `readChannelsCopy` names. -/
theorem readChannels_copy (st : State) (dest : Nat → Nat) (start count now : Nat) :
    readChannels st (some dest) start count now =
      match readChannelsCopy st (some dest) start count now with
      | some (a, n) => (n, some (memcpy dest st.dmxData a n))
      | none => (0, some dest) := by
  unfold readChannels readChannelsCopy
  dsimp only
  split_ifs <;> rfl

/-- C19: in every reachable state `lastPacketSize ≤ 513` and `bufferIndex ≤ 514`; the
`memcpy` of `processBreak` reads `dmxBuffer[dataStart .. dataStart + copySize)` with
`dataStart + copySize ≤ bufferIndex ≤ 514` and writes `dmxData[0 .. copySize)` with
`copySize ≤ 513`; `read c` reads `dmxData` only at `c < lastPacketSize ≤ 513`; the `memcpy` of
`readChannels` reads `dmxData[start .. start + toRead)` with
`start + toRead ≤ lastPacketSize ≤ 513` and writes `toRead ≤ count` bytes to the
destination. -/
theorem C19_accesses_in_bounds (st : State) (hr : Reachable st) :
    st.lastPacketSize ≤ 513 ∧ st.bufferIndex ≤ 514 ∧
      (∀ dataStart copySize, processBreakCopy st = some (dataStart, copySize) →
        dataStart + copySize ≤ st.bufferIndex ∧ st.bufferIndex ≤ 514 ∧ copySize ≤ 513) ∧
      (∀ c now i, readIndex st c now = some i →
        i = c ∧ i < st.lastPacketSize ∧ st.lastPacketSize ≤ 513) ∧
      (∀ buffer start count now a toRead,
        readChannelsCopy st buffer start count now = some (a, toRead) →
        a = start ∧ a + toRead ≤ st.lastPacketSize ∧ st.lastPacketSize ≤ 513 ∧
          toRead ≤ count) := by
  have hinv := Inv_of_Reachable st hr
  have hsz := hinv.size_le
  have hidx := hinv.index_le
  unfold DMX_PACKET_SIZE at hsz
  unfold DMX_BUFFER_SIZE at hidx
  refine ⟨hsz, hidx, ?_, ?_, ?_⟩
  · intro dataStart copySize h
    unfold processBreakCopy at h
    dsimp only at h
    unfold u16 DMX_PACKET_SIZE at h
    split_ifs at h <;> simp only [Option.some.injEq, Prod.mk.injEq] at h <;> omega
  · intro c now i h
    unfold readIndex at h
    split_ifs at h
    simp only [Option.some.injEq] at h
    omega
  · intro buffer start count now a toRead h
    cases buffer with
    | none => simp [readChannelsCopy] at h
    | some dest =>
      unfold readChannelsCopy at h
      dsimp only at h
      unfold u16 at h
      split_ifs at h <;> simp only [Option.some.injEq, Prod.mk.injEq] at h <;> omega

theorem C19_witness :
    Reachable exFullFrame ∧
      (exFullFrame.lastPacketSize ≤ 513 ∧ exFullFrame.bufferIndex ≤ 514 ∧
        (∀ dataStart copySize, processBreakCopy exFullFrame = some (dataStart, copySize) →
          dataStart + copySize ≤ exFullFrame.bufferIndex ∧ exFullFrame.bufferIndex ≤ 514 ∧
            copySize ≤ 513) ∧
        (∀ c now i, readIndex exFullFrame c now = some i →
          i = c ∧ i < exFullFrame.lastPacketSize ∧ exFullFrame.lastPacketSize ≤ 513) ∧
        (∀ buffer start count now a toRead,
          readChannelsCopy exFullFrame buffer start count now = some (a, toRead) →
          a = start ∧ a + toRead ≤ exFullFrame.lastPacketSize ∧
            exFullFrame.lastPacketSize ≤ 513 ∧ toRead ≤ count)) ∧
      readIndex exFullFrame 512 300 = some 512 ∧
      readChannelsCopy exFullFrame (some (fun _ => 77)) 500 20 300 = some (500, 13) :=
  ⟨⟨_, rfl⟩, C19_accesses_in_bounds exFullFrame ⟨_, rfl⟩, by decide, by decide⟩

/-! ## A read while a frame is published -/

/-- Without a producer step between its two parts, the split method is `readChannels`. -/
theorem readChannelsSplit_self (st : State) (buffer : Option (Nat → Nat))
    (start count now : Nat) :
    readChannelsSplit st st buffer start count now = readChannels st buffer start count now := by
  cases buffer <;> rfl

/-- C16, the code at the failing input: the published frame is `[0, 10, 20, 30, 40]`
(`exFrameA`); `readChannels(buf, 1, 4)`, called at time `240`, passes its guards and fixes
`toRead = 4` outside the critical section; the break at time `250` then publishes the frame
`[0, 77]` (`exFrameB`); the `memcpy` of `readChannels` now copies `dmxData[1..5)`. The call
returns `4` with `[77, 20, 30, 40]`: the size and three bytes of the previous frame with one
byte of the next. On the previous frame alone it gives `4` and `[10, 20, 30, 40]`, on the
next alone `1` and `[77]`. -/
theorem C16_readChannels_mixes_frames :
    Reachable exFrameA ∧ Reachable exFrameB ∧
      exFrameB = processBreak exFrameA 250 ∧
      exFrameA.lastPacketSize = 5 ∧
      List.map exFrameA.dmxData [0, 1, 2, 3, 4] = [0, 10, 20, 30, 40] ∧
      exFrameB.lastPacketSize = 2 ∧ List.map exFrameB.dmxData [0, 1] = [0, 77] ∧
      (readChannelsSplit exFrameA exFrameB (some (fun _ => 0)) 1 4 240).1 = 4 ∧
      firstFour (readChannelsSplit exFrameA exFrameB (some (fun _ => 0)) 1 4 240)
        = some [77, 20, 30, 40] ∧
      (readChannels exFrameA (some (fun _ => 0)) 1 4 240).1 = 4 ∧
      firstFour (readChannels exFrameA (some (fun _ => 0)) 1 4 240) = some [10, 20, 30, 40] ∧
      (readChannels exFrameB (some (fun _ => 0)) 1 4 260).1 = 1 ∧
      firstFour (readChannels exFrameB (some (fun _ => 0)) 1 4 260) = some [77, 0, 0, 0] :=
  ⟨⟨_, rfl⟩,
    ⟨[Op.begin 2 6 4 5 true 100 100, Op.onReceive [9, 0, 10, 20, 30, 40],
      Op.onReceiveError UART_BREAK_ERROR 200, Op.onReceive [9, 0, 77],
      Op.onReceiveError UART_BREAK_ERROR 250], rfl⟩,
    rfl, by decide, by decide, by decide, by decide, by decide, by decide, by decide,
    by decide, by decide, by decide⟩

/-- C20, the code at the failing input: one frame is published, `getPacketRate()` at time
`1200` renews the rate sample (`lastPacketRateTime = 1200`, `lastPacketCountForRate = 1`),
and a second call at the same time `1200` takes the last branch and divides
`packetDiff * 1000 = 0` by `timeDiff = 0`. -/
theorem C20_getPacketRate_zero_divisor :
    Reachable exSampled ∧ exSampled.initialized = true ∧ exSampled.packetCount = 1 ∧
      exSampled.lastPacketRateTime = 1200 ∧ exSampled.lastPacketCountForRate = 1 ∧
      (getPacketRate exSampled 1200).2 = ⟨0, 0⟩ ∧
      (getPacketRate exSampled 1200).2.den = 0 :=
  ⟨⟨_, rfl⟩, by decide, by decide, by decide, by decide, by decide, by decide⟩

end ESP32S3DMX
